import Mathlib

/-!
Verification of the ynab-bank-exporter transaction pipeline.

This file gives a shallow embedding, in Lean 4, of the core of the
ynab-bank-exporter repository: the issuer parsers (BHD, Caribe, QIK),
the fingerprint-based deduplicating store, the rules (normalization)
engine, the YNAB submission amount conversion, the batch-to-individual
sync fallback, and the sqlite-backed reconciliation state machine.

Modelling conventions:
- JavaScript strings are modelled as Lean String / List Char; the
  regex-based field extractors are hand-compiled into executable
  scanners over char lists that follow the source patterns.
- JavaScript numbers are modelled as rationals (the claims under
  study are about exact decimal arithmetic, not float drift).
- The md5 digest used for transaction fingerprints is modelled by a
  deterministic stand-in digest: the properties at stake depend only
  on the digest being a pure function of its input string.
- Database tables are modelled as lists of rows; the prepared SQL
  statements of src/cli/commands.ts become list transformations.
-/

/-- Transaction direction, mirroring the direction column of the
transactions table (CHECK(direction IN (inflow, outflow))). -/
inductive Direction where
  | inflow
  | outflow
deriving DecidableEq, Repr

/-- Error taxonomy from src/utils/errors.ts (enum ErrorType). -/
inductive ErrorType where
  | NETWORK_ERROR
  | RATE_LIMIT
  | TIMEOUT
  | SERVER_ERROR
  | AUTHENTICATION_ERROR
  | VALIDATION_ERROR
  | NOT_FOUND
  | CONFIGURATION_ERROR
  | PARSING_ERROR
  | UNKNOWN_ERROR
deriving DecidableEq, Repr

/-- Classified application error (class AppError of src/utils/errors.ts);
only the fields the reconciliation logic inspects are kept. -/
structure AppError where
  errType : ErrorType
  message : String
  retryable : Bool
deriving DecidableEq, Repr

/-- Canonical transaction record (interface Transaction of src/types.ts). -/
structure Transaction where
  id : String
  bank : String
  account : Option String
  date : String
  payee : String
  memo : String
  amount : ℚ
  currency : String
  direction : Direction
  rawMessageId : String
  rawThreadId : String
deriving DecidableEq, Repr

/-! ## String and character utilities

These model the JavaScript string operations used by the parsers:
whitespace normalization (replace of a whitespace run by one space),
trim, case-insensitive search (the regex i flag, ASCII range), and
digit handling. -/

/-- Whitespace characters recognized by the JS regex class backslash-s
(the subset that occurs in rendered email text). -/
def isWSChar (c : Char) : Bool :=
  c = ' ' || c = '\t' || c = '\n' || c = '\r'

/-- ASCII lower-casing of one char (model of the regex i flag; non-ASCII
letters are left unchanged on both sides of every comparison). -/
def lowerChar (c : Char) : Char := c.toLower

/-- Lower-case a char list. -/
def lcList (s : List Char) : List Char := s.map lowerChar

/-- Lower-case a string. -/
def lcStr (s : String) : String := ⟨lcList s.toList⟩

/-- Auxiliary worker for whitespace normalization; the flag records
whether the previously consumed char was part of a whitespace run. -/
def normWSAux : Bool → List Char → List Char
  | _, [] => []
  | prevWS, c :: cs =>
    if isWSChar c then
      if prevWS then normWSAux true cs else ' ' :: normWSAux true cs
    else c :: normWSAux false cs

/-- Model of text.replace(whitespace-run, one space) applied globally,
as in the cleanText computations of the parsers. -/
def normalizeWS (s : List Char) : List Char := normWSAux false s

/-- Model of String.prototype.trim. -/
def trimWS (s : List Char) : List Char :=
  ((s.dropWhile isWSChar).reverse.dropWhile isWSChar).reverse

/-- Does s start (case-insensitively) with the pattern pat?  pat is
expected pre-lowered. -/
def startsWithCI (pat s : List Char) : Bool :=
  pat.isPrefixOf (lcList (s.take pat.length))

/-- Case-insensitive substring test (model of a metacharacter-free
JS regex with the i flag testing a string). -/
def containsCIList (pat s : List Char) : Bool :=
  match s with
  | [] => pat.isEmpty
  | _ :: cs => startsWithCI pat s || containsCIList pat cs

/-- Case-insensitive substring test on strings; this is the model of
new RegExp(pat, i-flag).test(s) for a literal pattern pat, used by the
rules engine. -/
def regexTestCI (pat s : String) : Bool :=
  containsCIList (lcList pat.toList) s.toList

/-- Case-sensitive substring test (model of String.prototype.includes). -/
def containsLit (pat s : List Char) : Bool :=
  match s with
  | [] => pat.isEmpty
  | _ :: cs => pat.isPrefixOf s || containsLit pat cs

/-- String.prototype.includes on strings. -/
def strIncludes (s pat : String) : Bool := containsLit pat.toList s.toList

/-- Value of one decimal digit char. -/
def digitVal (c : Char) : ℕ := c.toNat - 48

/-- Value of a decimal digit list read most-significant first. -/
def digitsToNat (ds : List Char) : ℕ :=
  ds.foldl (fun acc c => 10 * acc + digitVal c) 0

/-- Value of a fractional digit list (the digits after the decimal
point): digits ds denote digitsToNat ds divided by 10 ^ ds.length. -/
def fracVal (ds : List Char) : ℚ :=
  (digitsToNat ds : ℚ) / (10 : ℚ) ^ ds.length

/-- Generic scanner: try, at each occurrence of the (pre-lowered)
label in the text, to run the tail parser p on the text right after
the label; the first occurrence where p succeeds wins.  This models a
JS regex whose pattern starts with the literal label: the engine
scans left to right and backtracks to later label occurrences when
the rest of the pattern fails. -/
def scanFor (label : List Char) (p : List Char → Option α) : List Char → Option α
  | [] => none
  | c :: cs =>
    if startsWithCI label (c :: cs) then
      match p ((c :: cs).drop label.length) with
      | some a => some a
      | none => scanFor label p cs
    else scanFor label p cs

/-- First run of four consecutive decimal digits in the text (model of
a lazy any-gap followed by a four-digit capture). -/
def find4Digits : List Char → Option String
  | c1 :: c2 :: c3 :: c4 :: rest =>
    if c1.isDigit && c2.isDigit && c3.isDigit && c4.isDigit then
      some ⟨[c1, c2, c3, c4]⟩
    else find4Digits (c2 :: c3 :: c4 :: rest)
  | _ => none

/-- Replace the first (case-sensitive) occurrence of pat by rep
(model of String.prototype.replace with a string pattern). -/
def replaceFirst (pat rep : List Char) : List Char → List Char
  | [] => []
  | c :: cs =>
    if pat.isPrefixOf (c :: cs) ∧ pat ≠ [] then rep ++ (c :: cs).drop pat.length
    else c :: replaceFirst pat rep cs


/-! ## Fingerprints

Each parser computes the transaction id as
md5(name : account : date : amount : payee : direction).  The md5
digest is modelled by a deterministic stand-in digest (every claim
about ids depends only on the digest being a pure function of the
input string, not on the md5 algorithm). -/

/-- Deterministic stand-in for the md5 hex digest. -/
def md5hex (s : String) : String :=
  toString (s.toList.foldl (fun h c => (h * 131 + c.toNat) % 2 ^ 64) 0)

/-- JS template-literal rendering of the possibly-undefined account:
an undefined account interpolates as the text undefined. -/
def acctRepr : Option String → String
  | some a => a
  | none => "undefined"

/-- JS number-to-string rendering of an amount, modelled by rendering
the exact rational; the claims depend only on this being a function
of the value. -/
def amountRepr (q : ℚ) : String :=
  toString q.num ++ "/" ++ toString q.den

/-- Rendering of a direction in a template literal. -/
def dirRepr : Direction → String
  | .inflow => "inflow"
  | .outflow => "outflow"

/-- The fingerprint id: md5 of the colon-joined issuer tuple
(bank, account-or-derived-account, date, amount, payee, direction). -/
def mkFingerprint (bank : String) (acct : Option String) (date : String)
    (amount : ℚ) (payee : String) (dir : Direction) : String :=
  md5hex (bank ++ ":" ++ acctRepr acct ++ ":" ++ date ++ ":" ++ amountRepr amount
    ++ ":" ++ payee ++ ":" ++ dirRepr dir)

/-! ## BHD parser (src/parsers/bhd.ts)

The parser works on the rendered text of the html body (cheerio
root text) and, for tabular notifications, on the sequence of table
rows with their cell texts.  A document is modelled by those rendered
artifacts plus the message metadata. -/

/-- A BHD document: message metadata plus the rendered text and the
table rows extracted from the html body. -/
structure BhdDoc where
  subject : String
  hasHtml : Bool
  text : List Char
  rows : List (List String)
  msgId : String
  threadId : String

/-- Known own instruments hard-coded in the BHD parser (myAccounts). -/
def bhdMyAccounts : List String := ["1610", "3709", "0014", "9508"]

/-- A matched decimal-amount token: the digits of the integral part
(after removal of the comma thousands separators) as a natural, and
the captured fractional digit chars.  The rational value is assigned
separately by decTokVal, keeping the scanners free of rational
arithmetic. -/
structure DecTok where
  intPart : ℕ
  fracDigits : List Char
deriving DecidableEq, Repr

/-- Value denoted by an amount token: the integral part plus the
fractional digits over the matching power of ten (this is
parseFloat applied to the captured text with commas removed). -/
def decTokVal (t : DecTok) : ℚ :=
  (t.intPart : ℚ) + fracVal t.fracDigits

/-- Tail of the transfer amount pattern after the Monto: label:
optional spaces, an optional two-letter currency capture (RD, US or
DO, case-insensitively, keeping the original chars), an optional
dollar sign, an optional single space, then a digits-and-commas run,
a decimal point, and exactly two decimal digits (the pattern itself
truncates the amount to two decimals). -/
def bhdAmountTail (s : List Char) : Option (Option (List Char) × DecTok) :=
  let s1 := s.dropWhile (· = ' ')
  let cur : Option (List Char) :=
    if startsWithCI "rd".toList s1 || startsWithCI "us".toList s1
        || startsWithCI "do".toList s1 then some (s1.take 2) else none
  let s2 := if cur.isSome then s1.drop 2 else s1
  let s3 := match s2 with
    | '$' :: r => r
    | _ => s2
  let s4 := match s3 with
    | ' ' :: r => r
    | _ => s3
  let ip := s4.takeWhile (fun c => c.isDigit || c = ',')
  let s5 := s4.drop ip.length
  if ip.isEmpty then none
  else match s5 with
    | '.' :: d1 :: d2 :: _ =>
      if d1.isDigit && d2.isDigit then
        some (cur, ⟨digitsToNat (ip.filter Char.isDigit), [d1, d2]⟩)
      else none
    | _ => none

/-- Currency of a transfer: captured tag (default RD) with the
first occurrence of RD replaced by DOP, then trimmed. -/
def bhdCurrency (cur : Option (List Char)) : String :=
  ⟨trimWS (replaceFirst "RD".toList "DOP".toList (cur.getD "RD".toList))⟩

/-- Explicit date-time token of a BHD document. -/
structure BhdDateTok where
  day : ℕ
  month : ℕ
  year : ℕ
  hour12 : ℕ
  minute : ℕ
  pm : Bool
deriving DecidableEq, Repr

/-- The am/pm marker: optional spaces then an a or p followed by m,
case-insensitively; true means pm. -/
def ampmTail (rest : List Char) : Option Bool :=
  match rest.dropWhile (· = ' ') with
  | a :: m :: _ =>
    if (lowerChar a = 'a' || lowerChar a = 'p') && lowerChar m = 'm' then
      some (lowerChar a = 'p')
    else none
  | _ => none

/-- Two-digit-hour alternative of the transfer time pattern. -/
def bhdTimeTail2 (s : List Char) : Option (ℕ × ℕ × Bool) :=
  match s with
  | h1 :: h2 :: ':' :: n1 :: n2 :: rest =>
    if h1.isDigit && h2.isDigit && n1.isDigit && n2.isDigit then
      (ampmTail rest).map (fun pm => (digitsToNat [h1, h2], digitsToNat [n1, n2], pm))
    else none
  | _ => none

/-- One-digit-hour alternative of the transfer time pattern. -/
def bhdTimeTail1 (s : List Char) : Option (ℕ × ℕ × Bool) :=
  match s with
  | h1 :: ':' :: n1 :: n2 :: rest =>
    if h1.isDigit && n1.isDigit && n2.isDigit then
      (ampmTail rest).map (fun pm => (digitVal h1, digitsToNat [n1, n2], pm))
    else none
  | _ => none

/-- The time part of the transfer date pattern: one or two hour
digits (greedy, two first), a colon, two minute digits, optional
spaces, and the am/pm marker. -/
def bhdTime (s : List Char) : Option (ℕ × ℕ × Bool) :=
  (bhdTimeTail2 s).orElse (fun _ => bhdTimeTail1 s)

/-- Tail of the transfer date pattern after its label: optional
spaces, dd/mm/yyyy, optional spaces, a dash, optional spaces, and the
time part. -/
def bhdDateTail (s : List Char) : Option BhdDateTok :=
  match s.dropWhile (· = ' ') with
  | d1 :: d2 :: '/' :: m1 :: m2 :: '/' :: y1 :: y2 :: y3 :: y4 :: rest =>
    if d1.isDigit && d2.isDigit && m1.isDigit && m2.isDigit
        && y1.isDigit && y2.isDigit && y3.isDigit && y4.isDigit then
      match rest.dropWhile (· = ' ') with
      | '-' :: rest2 =>
        (bhdTime (rest2.dropWhile (· = ' '))).map (fun (h, n, pm) =>
          { day := digitsToNat [d1, d2], month := digitsToNat [m1, m2],
            year := digitsToNat [y1, y2, y3, y4], hour12 := h, minute := n, pm })
      | _ => none
    else none
  | _ => none

/-- Gregorian leap year. -/
def isLeapYear (y : ℕ) : Bool :=
  (y % 4 = 0 && y % 100 ≠ 0) || y % 400 = 0

/-- Days in a month of a year. -/
def daysInMonth (m y : ℕ) : ℕ :=
  if m = 2 then (if isLeapYear y then 29 else 28)
  else if m = 4 || m = 6 || m = 9 || m = 11 then 30 else 31

/-- Validity of a date token under the date-fns strict parse with
format dd/MM/yyyy hh:mm a: day in the month, month 1-12, hour 1-12,
minute 0-59. -/
def bhdTokValid (t : BhdDateTok) : Bool :=
  1 ≤ t.month && t.month ≤ 12 && 1 ≤ t.day && t.day ≤ daysInMonth t.month t.year
    && 1 ≤ t.hour12 && t.hour12 ≤ 12 && t.minute ≤ 59

/-- Zero-pad to two digits. -/
def pad2 (n : ℕ) : String :=
  if n < 10 then "0" ++ toString n else toString n

/-- Zero-pad to four digits. -/
def pad4 (n : ℕ) : String :=
  if n < 10 then "000" ++ toString n
  else if n < 100 then "00" ++ toString n
  else if n < 1000 then "0" ++ toString n
  else toString n

/-- ISO calendar-date rendering yyyy-mm-dd (the toISOString date
part, modelled with a zero UTC offset). -/
def isoDate (y m d : ℕ) : String :=
  pad4 y ++ "-" ++ pad2 m ++ "-" ++ pad2 d

/-- Date string of a transfer: the ISO date of a valid explicit
token, the empty string when the token is invalid, and the empty
string when no token exists (the transfer path never falls back to
the received timestamp). -/
def bhdTransferDateStr (tok : Option BhdDateTok) : String :=
  match tok with
  | some t => if bhdTokValid t then isoDate t.year t.month t.day else ""
  | none => ""

/-- Stop condition of the lazy payee capture: optional spaces followed
by the confirmation-number label (the lookahead of the pattern). -/
def bhdPayeeStop (s : List Char) : Bool :=
  startsWithCI "número de confirmación".toList (s.dropWhile (· = ' '))

/-- Lazy capture: the shortest prefix whose remainder satisfies the
stop condition or is empty. -/
def captureUntilStop (stop : List Char → Bool) : List Char → List Char
  | [] => []
  | c :: cs => if stop (c :: cs) then [] else c :: captureUntilStop stop cs

/-- The destination instrument: first four-digit run after the
Producto destino: label. -/
def bhdScanDest (clean : List Char) : Option String :=
  scanFor "producto destino:".toList find4Digits clean

/-- The origin instrument: first four-digit run after the
Producto origen: label. -/
def bhdScanOrigin (clean : List Char) : Option String :=
  scanFor "producto origen:".toList find4Digits clean

/-- The transfer amount and currency capture. -/
def bhdScanAmount (clean : List Char) : Option (Option (List Char) × DecTok) :=
  scanFor "monto:".toList bhdAmountTail clean

/-- The transfer explicit date token. -/
def bhdScanDate (clean : List Char) : Option BhdDateTok :=
  scanFor "fecha y hora de la transacción:".toList bhdDateTail clean

/-- The transfer beneficiary capture (may be empty). -/
def bhdScanPayee (clean : List Char) : Option (List Char) :=
  scanFor "beneficiario:".toList
    (fun s => some (captureUntilStop bhdPayeeStop (s.dropWhile (· = ' ')))) clean

/-- parseTransfer of the BHD parser: extract destination, amount
(null when absent), date, payee and origin from the
whitespace-normalized text, then disambiguate direction and account
against the known own instruments. -/
def bhdParseTransfer (msg : BhdDoc) : Option Transaction :=
  let clean := normalizeWS msg.text
  let account := bhdScanDest clean
  match bhdScanAmount clean with
  | none => none
  | some (curTok, amountTok) =>
    let amount := decTokVal amountTok
    let currency := bhdCurrency curTok
    let date := bhdTransferDateStr (bhdScanDate clean)
    let payee : String := match bhdScanPayee clean with
      | some p => ⟨trimWS p⟩
      | none => "Transfer"
    let originAccount := bhdScanOrigin clean
    let direction : Direction :=
      if (account.map (bhdMyAccounts.contains ·)).getD false then .inflow
      else if (originAccount.map (bhdMyAccounts.contains ·)).getD false then .outflow
      else .outflow
    if account.isSome ∧ ¬ bhdMyAccounts.contains (account.getD "")
        ∧ originAccount.isSome ∧ bhdMyAccounts.contains (originAccount.getD "") then
      some { id := mkFingerprint "BHD" (some (originAccount.getD "")) date amount payee .outflow,
             bank := "BHD", account := some (originAccount.getD ""), date, payee,
             memo := "Transferencia a terceros", amount, currency, direction := .outflow,
             rawMessageId := msg.msgId, rawThreadId := msg.threadId }
    else
      some { id := mkFingerprint "BHD" account date amount payee direction,
             bank := "BHD", account, date, payee,
             memo := "Transferencia entre productos", amount, currency, direction,
             rawMessageId := msg.msgId, rawThreadId := msg.threadId }


/-! ## BHD tabular notifications (parseNotification)

The account is extracted from the rendered text by the pattern
Visa-then-whitespace-then-anything-lazy-then-hash-then-optional-space
-then-four-digits; the data row is the first table row with at least
four cells whose first cell matches the strict date-time pattern. -/

/-- Optional single whitespace then four digits (the tail of the
account pattern after the hash sign). -/
def digits4After (s : List Char) : Option String :=
  let s1 := match s with
    | c :: cs => if isWSChar c then cs else s
    | [] => s
  match s1 with
  | a :: b :: c :: d :: _ =>
    if a.isDigit && b.isDigit && c.isDigit && d.isDigit then some ⟨[a, b, c, d]⟩
    else none
  | _ => none

/-- Walk the lazy any-gap of the account pattern: at each hash sign
try the four-digit tail, otherwise keep accumulating; a line break
ends the gap (the dot of the pattern does not cross lines).  pre
accumulates the group-1 chars. -/
def bhdHashScan (pre : List Char) : List Char → Option (String × String)
  | [] => none
  | c :: cs =>
    if c = '#' then
      match digits4After cs with
      | some last4 => some (⟨trimWS pre⟩, last4)
      | none => bhdHashScan (pre ++ [c]) cs
    else if c = '\n' || c = '\r' then none
    else bhdHashScan (pre ++ [c]) cs

/-- After a case-insensitive Visa occurrence (pre holds its original
chars): require at least one whitespace char, absorb the whitespace
run, then walk the gap to the hash sign. -/
def bhdAccountTail (pre s : List Char) : Option (String × String) :=
  match s with
  | c :: cs =>
    if isWSChar c then
      bhdHashScan (pre ++ [c] ++ cs.takeWhile isWSChar) (cs.dropWhile isWSChar)
    else none
  | [] => none

/-- The account pattern over the full rendered text: first position
where the whole pattern matches wins; yields the trimmed group-1 name
and the four last digits. -/
def bhdAccountScan : List Char → Option (String × String)
  | [] => none
  | c :: cs =>
    if startsWithCI "visa".toList (c :: cs) then
      match bhdAccountTail ((c :: cs).take 4) ((c :: cs).drop 4) with
      | some r => some r
      | none => bhdAccountScan cs
    else bhdAccountScan cs

/-- parseFloat on the cleaned amount cell: optional leading
whitespace and sign, an integral digit run, an optional decimal point
with a fractional digit run; no digits at all is NaN (none).
Exponents do not occur in the notification cells and are omitted. -/
def jsParseFloat (s : List Char) : Option (Bool × DecTok) :=
  let s1 := s.dropWhile isWSChar
  let (neg, s2) : Bool × List Char := match s1 with
    | '-' :: r => (true, r)
    | '+' :: r => (false, r)
    | _ => (false, s1)
  let ip := s2.takeWhile Char.isDigit
  let s3 := s2.drop ip.length
  match s3 with
  | '.' :: r =>
    let fp := r.takeWhile Char.isDigit
    if ip.isEmpty ∧ fp.isEmpty then none
    else some (neg, ⟨digitsToNat ip, fp⟩)
  | _ => if ip.isEmpty then none else some (neg, ⟨digitsToNat ip, []⟩)

/-- Value of a parseFloat result. -/
def jsFloatVal : Bool × DecTok → ℚ
  | (neg, t) => if neg then -(decTokVal t) else decTokVal t

/-- The end of the strict first-cell pattern: two hour digits, colon,
two minute digits, at least one whitespace, the am/pm marker, and
nothing after it (the pattern is anchored at both ends). -/
def bhdRowTimeEnd (s : List Char) : Option (ℕ × ℕ × Bool) :=
  match s with
  | h1 :: h2 :: ':' :: n1 :: n2 :: c :: rest =>
    if h1.isDigit && h2.isDigit && n1.isDigit && n2.isDigit && isWSChar c then
      match (c :: rest).dropWhile isWSChar with
      | [a, m] =>
        if (lowerChar a = 'a' || lowerChar a = 'p') && lowerChar m = 'm' then
          some (digitsToNat [h1, h2], digitsToNat [n1, n2], lowerChar a = 'p')
        else none
      | _ => none
    else none
  | _ => none

/-- The strict first-cell pattern dd/mm/yyyy then whitespace then
hh:mm am-or-pm, anchored to the whole (trimmed, collapsed) cell. -/
def bhdFirstCellTok (s : List Char) : Option BhdDateTok :=
  match s with
  | d1 :: d2 :: '/' :: m1 :: m2 :: '/' :: y1 :: y2 :: y3 :: y4 :: c :: rest =>
    if d1.isDigit && d2.isDigit && m1.isDigit && m2.isDigit
        && y1.isDigit && y2.isDigit && y3.isDigit && y4.isDigit && isWSChar c then
      (bhdRowTimeEnd ((c :: rest).dropWhile isWSChar)).map (fun (h, n, pm) =>
        { day := digitsToNat [d1, d2], month := digitsToNat [m1, m2],
          year := digitsToNat [y1, y2, y3, y4], hour12 := h, minute := n, pm })
    else none
  | _ => none

/-- The data row: first table row with at least four cells whose
first cell, trimmed and whitespace-collapsed, matches the strict
date-time pattern. -/
def bhdFindRow (rows : List (List String)) : Option (List String) :=
  rows.find? (fun cells =>
    cells.length ≥ 4 && (bhdFirstCellTok (normalizeWS (trimWS (cells.headD "").toList))).isSome)

/-- Reversal and credit keywords tested against the payee. -/
def bhdPayeeKeywords : List String :=
  ["REVERSO", "DEVOLUCION", "CREDITO", "ABONO", "PAGO RECIBIDO"]

/-- Credit keywords tested against the type column. -/
def bhdTypeKeywords : List String := ["Crédito", "Abono", "Reverso"]

/-- Case-insensitive test of an alternation of literal keywords. -/
def matchesAnyCI (keywords : List String) (s : String) : Bool :=
  keywords.any (fun k => containsCIList (lcList k.toList) s.toList)

/-- Direction of a tabular notification: outflow unless the payee
carries a reversal keyword, then overridden to inflow when the type
column carries a credit keyword. -/
def bhdNotifDirection (payee : String) (typeRaw : Option String) : Direction :=
  let d1 := if matchesAnyCI bhdPayeeKeywords payee then Direction.inflow else Direction.outflow
  match typeRaw with
  | some tr => if matchesAnyCI bhdTypeKeywords tr then Direction.inflow else d1
  | none => d1

/-- The currency cell: first RD replaced by DOP, trimmed, defaulted
to DOP when empty (falsy). -/
def jsCurrencyOr (currencyRaw : String) : String :=
  let c : String := ⟨trimWS (replaceFirst "RD".toList "DOP".toList currencyRaw.toList)⟩
  if c = "" then "DOP" else c

/-- parseNotification of the BHD parser: locate the account pattern
in the rendered text and the data row in the table; reject the row
when its amount or payee cell is empty; amounts are parseFloat of the
cell with dollar signs and commas removed (a NaN amount, possible
only for a non-numeric cell, is modelled as zero: no claim depends on
it); an invalid date yields the empty date string. -/
def bhdParseNotification (msg : BhdDoc) : Option Transaction :=
  let accountMatch := bhdAccountScan msg.text
  let account := accountMatch.map (·.2)
  match bhdFindRow msg.rows with
  | none => none
  | some cells =>
    let dateTok := bhdFirstCellTok (normalizeWS (trimWS (cells.headD "").toList))
    let currencyRaw : String := ⟨trimWS (cells.getD 1 "").toList⟩
    let amountRaw : String := ⟨trimWS (cells.getD 2 "").toList⟩
    let payeeRaw : String := ⟨trimWS (cells.getD 3 "").toList⟩
    let typeRaw : Option String :=
      if cells.length ≥ 6 then some ⟨trimWS (cells.getD 5 "").toList⟩ else none
    if amountRaw = "" ∨ payeeRaw = "" then none
    else
      let amount : ℚ :=
        match jsParseFloat (amountRaw.toList.filter (fun c => c ≠ '$' ∧ c ≠ ',')) with
        | some v => jsFloatVal v
        | none => 0
      let date : String := match dateTok with
        | some t => if bhdTokValid t then isoDate t.year t.month t.day else ""
        | none => ""
      let payee : String := ⟨trimWS (normalizeWS payeeRaw.toList)⟩
      let currency : String := jsCurrencyOr currencyRaw
      let direction := bhdNotifDirection payee typeRaw
      let memo : String := match accountMatch with
        | some (name, last4) => name ++ " " ++ last4
        | none => "BHD Transaction"
      some { id := mkFingerprint "BHD" account date amount payee direction,
             bank := "BHD", account, date, payee, memo, amount, currency, direction,
             rawMessageId := msg.msgId, rawThreadId := msg.threadId }

/-- parse of the BHD parser: no html body is unparsable; transfer
subjects go to parseTransfer, everything else to parseNotification. -/
def bhdParse (msg : BhdDoc) : Option Transaction :=
  if ¬ msg.hasHtml then none
  else if strIncludes msg.subject "Transacciones entre mis productos"
      || strIncludes msg.subject "Transferencias" then
    bhdParseTransfer msg
  else bhdParseNotification msg


/-! ## JS Date model

new Date(year, monthIndex, day, hours, minutes) normalizes
out-of-range components by rollover.  A JS date value is modelled as
its total minutes (the model has a zero UTC offset), using the
standard civil-calendar conversion. -/

/-- Days from the epoch 1970-01-01 of a civil date with m in 1..12
(d may be out of range and rolls over). -/
def daysFromCivil (y : ℤ) (m : ℤ) (d : ℤ) : ℤ :=
  let y1 := if m ≤ 2 then y - 1 else y
  let era := y1.fdiv 400
  let yoe := y1 - era * 400
  let mp := if m > 2 then m - 3 else m + 9
  let doy := (153 * mp + 2).ediv 5 + d - 1
  let doe := yoe * 365 + yoe.ediv 4 - yoe.ediv 100 + doy
  era * 146097 + doe - 719468

/-- Civil date (y, m, d) of a days-from-epoch count. -/
def civilFromDays (z0 : ℤ) : ℤ × ℤ × ℤ :=
  let z := z0 + 719468
  let era := z.fdiv 146097
  let doe := z - era * 146097
  let yoe := (doe - doe.ediv 1460 + doe.ediv 36524 - doe.ediv 146096).ediv 365
  let y := yoe + era * 400
  let doy := doe - (365 * yoe + yoe.ediv 4 - yoe.ediv 100)
  let mp := (5 * doy + 2).ediv 153
  let d := doy - (153 * mp + 2).ediv 5 + 1
  let m := if mp < 10 then mp + 3 else mp - 9
  (if m ≤ 2 then y + 1 else y, m, d)

/-- Total minutes of new Date(year, monthIndex, day, hours, minutes):
months normalize first, then days, hours and minutes roll freely. -/
def jsDateMin (y mIdx d hh mm : ℤ) : ℤ :=
  let ym := y + mIdx.fdiv 12
  let m := mIdx.emod 12 + 1
  (daysFromCivil ym m d) * 1440 + hh * 60 + mm

/-- getHours of a date value. -/
def jsHours (v : ℤ) : ℤ := (v.emod 1440).ediv 60

/-- getMinutes of a date value: the minute within the hour. -/
def jsMinutes (v : ℤ) : ℤ := v.emod 60

/-- format(date, yyyy-MM-dd) of a date value. -/
def formatYMD (v : ℤ) : String :=
  match civilFromDays (v.fdiv 1440) with
  | (y, m, d) => isoDate y.toNat m.toNat d.toNat


/-! ## Caribe parser (src/parsers/caribe.ts) -/

/-- A Caribe or QIK document: message metadata, the rendered text and
the received timestamp (a JS date value). -/
structure MailDoc where
  subject : String
  hasHtml : Bool
  text : List Char
  received : ℤ
  msgId : String
  threadId : String

/-- Tail of the card pattern after terminada: at least one
whitespace, an optional en followed by whitespace, then four
digits. -/
def caribeTermTail (s : List Char) : Option String :=
  match s with
  | c :: cs =>
    if isWSChar c then
      let s1 := cs.dropWhile isWSChar
      let s2 :=
        if startsWithCI "en".toList s1 then
          match s1.drop 2 with
          | c2 :: cs2 => if isWSChar c2 then some (cs2.dropWhile isWSChar) else none
          | [] => none
        else none
      let s3 := s2.getD s1
      match s3 with
      | a :: b :: c3 :: d :: _ =>
        if a.isDigit && b.isDigit && c3.isDigit && d.isDigit then some ⟨[a, b, c3, d]⟩
        else none
      | _ => none
    else none
  | [] => none

/-- The card ending: terminada optionally-en four digits, else the
first four-digit run after a Tarjeta occurrence. -/
def caribeScanAccount (clean : List Char) : Option String :=
  match scanFor "terminada".toList caribeTermTail clean with
  | some a => some a
  | none => scanFor "tarjeta".toList find4Digits clean

/-- Tail of the amount pattern after the Monto: label: optional
spaces, a digits-and-commas run (at least one char), an optional
decimal point and a greedy fractional digit run of any length (the
pattern keeps all decimal digits, it does not truncate). -/
def caribeAmountTail (s : List Char) : Option DecTok :=
  let s1 := s.dropWhile (· = ' ')
  let ip := s1.takeWhile (fun c => c.isDigit || c = ',')
  if ip.isEmpty then none
  else
    let s2 := s1.drop ip.length
    let frac := match s2 with
      | '.' :: r => r.takeWhile Char.isDigit
      | _ => []
    some ⟨digitsToNat (ip.filter Char.isDigit), frac⟩

/-- The amount token of a Caribe document. -/
def caribeScanAmount (clean : List Char) : Option DecTok :=
  scanFor "monto:".toList caribeAmountTail clean

/-- Words that must follow, each preceded by at least one whitespace
char, case-insensitively. -/
def wsWordsCI : List (List Char) → List Char → Bool
  | [], _ => true
  | w :: ws, s =>
    match s with
    | c :: _ =>
      isWSChar c && startsWithCI w (s.dropWhile isWSChar)
        && wsWordsCI ws ((s.dropWhile isWSChar).drop w.length)
    | [] => false

/-- Stop condition of the Caribe payee captures: whitespace then
Monto, or whitespace then Moneda (the tail group of the patterns). -/
def caribePayeeStop (s : List Char) : Bool :=
  wsWordsCI ["monto".toList] s || wsWordsCI ["moneda".toList] s

/-- Lazy capture of at least one char until the stop condition or the
end of the text. -/
def captureLazy1 (stop : List Char → Bool) (s : List Char) : Option (List Char) :=
  match s with
  | [] => none
  | c :: cs => some (c :: captureUntilStop stop cs)

/-- Lazy letters-and-whitespace capture: a letter, then at least one
more letter or whitespace, stopping as early as the stop condition or
the end allows; a char outside the class before a stop fails. -/
def upperCaptureLoop (stop : List Char → Bool) (acc : List Char) : List Char → Option (List Char)
  | [] => none
  | c :: cs =>
    if c.isAlpha || isWSChar c then
      if stop cs || cs.isEmpty then some (acc ++ [c])
      else upperCaptureLoop stop (acc ++ [c]) cs
    else none

/-- The capture of a letter followed lazily by letters and
whitespace (the A-Z class pattern under the i flag). -/
def upperCapture (stop : List Char → Bool) (s : List Char) : Option (List Char) :=
  match s with
  | c :: cs => if c.isAlpha then upperCaptureLoop stop [c] cs else none
  | [] => none

/-- The Caribe payee: the Comercio: capture, else the
transacción en: capture, else the letters capture after
transacción en, else the literal default. -/
def caribeScanPayee (clean : List Char) : String :=
  let com := scanFor "comercio:".toList
    (fun s => captureLazy1 caribePayeeStop (s.dropWhile (· = ' '))) clean
  let com2 := match com with
    | some p => some p
    | none => scanFor "transacción en:".toList
        (fun s => captureLazy1 caribePayeeStop (s.dropWhile (· = ' '))) clean
  match com2 with
  | some p => ⟨trimWS p⟩
  | none =>
    match scanFor "transacción en ".toList (upperCapture caribePayeeStop) clean with
    | some p => ⟨trimWS p⟩
    | none => "CARIBE Transaction"

/-- One or two digits followed by the given separator, greedy two
first; yields the value and the rest after the separator. -/
def digits12Sep (sep : Char) (s : List Char) : Option (ℕ × List Char) :=
  match s with
  | d1 :: d2 :: c :: rest =>
    if d1.isDigit && d2.isDigit && c = sep then some (digitsToNat [d1, d2], rest)
    else if d1.isDigit && d2 = sep then some (digitVal d1, c :: rest)
    else none
  | d1 :: d2 :: rest =>
    if d1.isDigit && d2 = sep then some (digitVal d1, rest)
    else none
  | _ => none

/-- Tail of the Fecha: pattern: optional spaces then
one-or-two-digit day, slash, one-or-two-digit month, slash, four
digit year. -/
def caribeFechaTail (s : List Char) : Option (ℕ × ℕ × ℕ) :=
  let s1 := s.dropWhile (· = ' ')
  match digits12Sep '/' s1 with
  | none => none
  | some (d, s2) =>
    match digits12Sep '/' s2 with
    | none => none
    | some (m, s3) =>
      match s3 with
      | y1 :: y2 :: y3 :: y4 :: _ =>
        if y1.isDigit && y2.isDigit && y3.isDigit && y4.isDigit then
          some (d, m, digitsToNat [y1, y2, y3, y4])
        else none
      | _ => none

/-- The explicit Caribe date token (day, month, year). -/
def caribeScanFecha (clean : List Char) : Option (ℕ × ℕ × ℕ) :=
  scanFor "fecha:".toList caribeFechaTail clean

/-- Tail of the Hora: pattern: optional spaces, one-or-two-digit
hour, colon, two minute digits, colon, two second digits; the
seconds are captured but unused downstream. -/
def caribeHoraTail (s : List Char) : Option (ℕ × ℕ) :=
  let s1 := s.dropWhile (· = ' ')
  match digits12Sep ':' s1 with
  | none => none
  | some (h, s2) =>
    match s2 with
    | n1 :: n2 :: ':' :: s1' :: s2' :: _ =>
      if n1.isDigit && n2.isDigit && s1'.isDigit && s2'.isDigit then
        some (h, digitsToNat [n1, n2])
      else none
    | _ => none

/-- The explicit Caribe time token (hour, minute). -/
def caribeScanHora (clean : List Char) : Option (ℕ × ℕ) :=
  scanFor "hora:".toList caribeHoraTail clean

/-- The Caribe transaction date value: explicit date and time when
both tokens exist; explicit date with the received hours and minutes
when only the date token exists; the received timestamp when no date
token exists.  (Construction from integer components never yields an
invalid JS date, so the isValid fallback of the source is dead code
here.) -/
def caribeTxDateMin (fecha : Option (ℕ × ℕ × ℕ)) (hora : Option (ℕ × ℕ))
    (received : ℤ) : ℤ :=
  match fecha, hora with
  | some (d, m, y), some (h, n) => jsDateMin y ((m : ℤ) - 1) d h n
  | some (d, m, y), none =>
    jsDateMin y ((m : ℤ) - 1) d (jsHours received) (jsMinutes received)
  | none, _ => received

/-- parse of the Caribe parser: card ending (null when absent), then
amount (null when absent), then payee, then the transaction date;
direction is always outflow for card spending. -/
def caribeParse (msg : MailDoc) : Option Transaction :=
  if ¬ msg.hasHtml then none
  else
    let clean := normalizeWS msg.text
    match caribeScanAccount clean with
    | none => none
    | some account =>
      match caribeScanAmount clean with
      | none => none
      | some amountTok =>
        let amount := decTokVal amountTok
        let payee := caribeScanPayee clean
        let dateStr := formatYMD
          (caribeTxDateMin (caribeScanFecha clean) (caribeScanHora clean) msg.received)
        some { id := mkFingerprint "CARIBE" (some account) dateStr amount payee .outflow,
               bank := "CARIBE", account := some account, date := dateStr,
               payee := ⟨trimWS payee.toList⟩,
               memo := "CARIBE Credit Card ending in " ++ account,
               amount, currency := "DOP", direction := .outflow,
               rawMessageId := msg.msgId, rawThreadId := msg.threadId }


/-! ## QIK parser (src/parsers/qik.ts) -/

/-- Digits run, stars run, then four captured digits (the shared tail
of both card-ending alternatives). -/
def qikStarsTail (s : List Char) : Option String :=
  let ds := s.takeWhile Char.isDigit
  if ds.isEmpty then none
  else
    let s1 := s.drop ds.length
    let st := s1.takeWhile (· = '*')
    if st.isEmpty then none
    else
      match s1.drop st.length with
      | a :: b :: c :: d :: _ =>
        if a.isDigit && b.isDigit && c.isDigit && d.isDigit then some ⟨[a, b, c, d]⟩
        else none
      | _ => none

/-- At least one whitespace char, absorbed greedily. -/
def afterWS (s : List Char) : Option (List Char) :=
  match s with
  | c :: cs => if isWSChar c then some (cs.dropWhile isWSChar) else none
  | [] => none

/-- The QIK card-ending pattern: at each position, the Tarjeta
alternative first, then the termina en alternative (leftmost match
wins, alternative order breaks ties at one position). -/
def qikAccountScan : List Char → Option String
  | [] => none
  | c :: cs =>
    let alt1 :=
      if startsWithCI "tarjeta".toList (c :: cs) then
        (afterWS ((c :: cs).drop 7)).bind qikStarsTail
      else none
    let here := match alt1 with
      | some r => some r
      | none =>
        if startsWithCI "termina".toList (c :: cs) then
          (afterWS ((c :: cs).drop 7)).bind (fun s1 =>
            if startsWithCI "en".toList s1 then (afterWS (s1.drop 2)).bind qikStarsTail
            else none)
        else none
    match here with
    | some r => some r
    | none => qikAccountScan cs

/-- The QIK amount token: the RD-dollar label followed by the same
digits-commas-optional-fraction tail as the Caribe amount pattern
(again keeping every captured decimal digit, no truncation). -/
def qikScanAmount (clean : List Char) : Option DecTok :=
  scanFor "rd$".toList caribeAmountTail clean

/-- Stop condition of the QIK payee captures: whitespace-separated
con tu tarjeta. -/
def qikConStop (s : List Char) : Bool :=
  wsWordsCI ["con".toList, "tu".toList, "tarjeta".toList] s

/-- Bounded lazy class capture: at least one and at most the budget
of class chars, stopping as early as the stop condition (or, when
allowed, the end of the text) permits. -/
def lazyCapB (cls : Char → Bool) (stop : List Char → Bool) (allowEnd : Bool) :
    ℕ → List Char → Option (List Char)
  | _, [] => none
  | 0, _ => none
  | n + 1, c :: cs =>
    if cls c then
      if stop cs || (cs.isEmpty && allowEnd) then some [c]
      else (lazyCapB cls stop allowEnd n cs).map (c :: ·)
    else none

/-- The Localidad: capture: optional spaces then one to two hundred
lazy chars up to the con tu tarjeta phrase or the end.  (The
subsequent split on the same phrase in the source is a no-op: the
lazy capture always stops before the first phrase occurrence.) -/
def qikLocalidadCap (s : List Char) : Option (List Char) :=
  lazyCapB (fun _ => true) qikConStop true 200 (s.dropWhile (· = ' '))

/-- The en-merchant capture: at least one whitespace after the label,
a letter, then one to one hundred lazy letters-or-whitespace up to
the phrase or the end. -/
def qikEnTail (s : List Char) : Option (List Char) :=
  (afterWS s).bind (fun s1 =>
    match s1 with
    | c :: cs =>
      if c.isAlpha then
        (lazyCapB (fun c2 => c2.isAlpha || isWSChar c2) qikConStop true 100 cs).map (c :: ·)
      else none
    | [] => none)

/-- Positional scan: first position where the pattern matches. -/
def scanPos (p : List Char → Option α) : List Char → Option α
  | [] => none
  | c :: cs =>
    match p (c :: cs) with
    | some a => some a
    | none => scanPos p cs

/-- The last-resort merchant pattern at one position: a letter, then
one to one hundred lazy letters-or-whitespace that must be followed
by the con tu tarjeta phrase (no end alternative). -/
def qikMerchantAt (s : List Char) : Option (List Char) :=
  match s with
  | c :: cs =>
    if c.isAlpha then
      (lazyCapB (fun c2 => c2.isAlpha || isWSChar c2) qikConStop false 100 cs).map (c :: ·)
    else none
  | [] => none

/-- The QIK payee: the Localidad: capture, else the en-merchant
capture, else the merchant-before-phrase capture, else the literal
default. -/
def qikScanPayee (clean : List Char) : String :=
  match scanFor "localidad:".toList qikLocalidadCap clean with
  | some p => ⟨trimWS p⟩
  | none =>
    match scanFor "en".toList qikEnTail clean with
    | some p => ⟨trimWS p⟩
    | none =>
      match scanPos qikMerchantAt clean with
      | some p => ⟨trimWS p⟩
      | none => "QIK Transaction"

/-- The QIK date-time pattern at one position:
one-or-two-digit month, dash, one-or-two-digit day, dash, four digit
year, whitespace, one-or-two-digit hour, colon, two minute digits,
optional whitespace, AM or PM.  (The second, Fecha-y-hora-prefixed
pattern of the source can only match where this one already matches,
so it adds nothing.) -/
def qikDateAt (s : List Char) : Option (ℕ × ℕ × ℕ × ℕ × ℕ × Bool) :=
  match digits12Sep '-' s with
  | none => none
  | some (m, s2) =>
    match digits12Sep '-' s2 with
    | none => none
    | some (d, s3) =>
      match s3 with
      | y1 :: y2 :: y3 :: y4 :: rest =>
        if y1.isDigit && y2.isDigit && y3.isDigit && y4.isDigit then
          (afterWS rest).bind (fun s4 =>
            match digits12Sep ':' s4 with
            | none => none
            | some (h, s5) =>
              match s5 with
              | n1 :: n2 :: rest2 =>
                if n1.isDigit && n2.isDigit then
                  match (rest2.dropWhile isWSChar) with
                  | a :: mchar :: _ =>
                    if (lowerChar a = 'a' || lowerChar a = 'p') && lowerChar mchar = 'm' then
                      some (m, d, digitsToNat [y1, y2, y3, y4], h, digitsToNat [n1, n2],
                        lowerChar a = 'p')
                    else none
                  | _ => none
                else none
              | _ => none)
        else none
      | _ => none

/-- The QIK explicit date token. -/
def qikScanDate (clean : List Char) : Option (ℕ × ℕ × ℕ × ℕ × ℕ × Bool) :=
  scanPos qikDateAt clean

/-- The QIK transaction date value: the explicit token with the 12
hour clock resolved (pm adds twelve except at twelve, am maps twelve
to zero), else the received timestamp. -/
def qikTxDateMin (tok : Option (ℕ × ℕ × ℕ × ℕ × ℕ × Bool)) (received : ℤ) : ℤ :=
  match tok with
  | some (m, d, y, h, n, pm) =>
    let h24 : ℕ := if pm ∧ h ≠ 12 then h + 12 else if ¬ pm ∧ h = 12 then 0 else h
    jsDateMin y ((m : ℤ) - 1) d h24 n
  | none => received

/-- parse of the QIK parser: card ending (null when absent), then
amount (null when absent), then payee (clipped to two hundred chars)
and date; direction is always outflow for card spending. -/
def qikParse (msg : MailDoc) : Option Transaction :=
  if ¬ msg.hasHtml then none
  else
    let clean := normalizeWS msg.text
    match qikAccountScan clean with
    | none => none
    | some account =>
      match qikScanAmount clean with
      | none => none
      | some amountTok =>
        let amount := decTokVal amountTok
        let payee0 := qikScanPayee clean
        let payee : String :=
          if payee0.length > 200 then ⟨trimWS (payee0.toList.take 200)⟩ else payee0
        let dateStr := formatYMD (qikTxDateMin (qikScanDate clean) msg.received)
        some { id := mkFingerprint "QIK" (some account) dateStr amount payee .outflow,
               bank := "QIK", account := some account, date := dateStr,
               payee := ⟨trimWS payee.toList⟩,
               memo := "QIK Credit Card ending in " ++ account,
               amount, currency := "DOP", direction := .outflow,
               rawMessageId := msg.msgId, rawThreadId := msg.threadId }


/-! ## Durable store and reconciliation state machine
(src/cli/commands.ts prepared statements over the transactions table) -/

/-- A row of the transactions table: the immutable financial fields
plus the reconciliation status columns. -/
structure TxRow where
  tx : Transaction
  ynabTransactionId : Option String
  syncedAt : Option ℕ
  lastError : Option String
  lastErrorType : Option ErrorType
  retryCount : ℕ
  lastRetry : Option ℕ
deriving DecidableEq, Repr

/-- A freshly inserted row: all reconciliation columns null. -/
def freshRow (t : Transaction) : TxRow :=
  { tx := t, ynabTransactionId := none, syncedAt := none, lastError := none,
    lastErrorType := none, retryCount := 0, lastRetry := none }

/-- INSERT OR IGNORE INTO transactions (insertTx): a primary-key
collision is a success-no-op; the boolean is info.changes > 0. -/
def insertIfAbsent (s : List TxRow) (t : Transaction) : List TxRow × Bool :=
  if s.any (fun r => r.tx.id = t.id) then (s, false) else (s ++ [freshRow t], true)

/-- updateYNABSync / updateYNABSyncRetry: set the ledger id, stamp
ynab_synced_at, clear the error columns, reset the retry count. -/
def recordSynced (s : List TxRow) (i ynabId : String) (now : ℕ) : List TxRow :=
  s.map (fun r => if r.tx.id = i then
    { r with
      ynabTransactionId := some ynabId
      syncedAt := some now
      lastError := none
      lastErrorType := none
      retryCount := 0 } else r)

/-- updateYNABError / updateYNABErrorRetry: set the error columns,
bump the retry count, stamp the last retry, and stamp ynab_synced_at
as well; the ledger id column is left untouched. -/
def recordError (s : List TxRow) (i e : String) (k : ErrorType) (now : ℕ) : List TxRow :=
  s.map (fun r => if r.tx.id = i then
    { r with
      lastError := some e
      lastErrorType := some k
      retryCount := r.retryCount + 1
      lastRetry := some now
      syncedAt := some now } else r)

/-- getUnsyncedTransactions: ynab_synced_at IS NULL AND
ynab_sync_error IS NULL (the fresh-sync pending selection; the
ordering clause is irrelevant to the claims proved here). -/
def pendingSel (s : List TxRow) : List TxRow :=
  s.filter (fun r => r.syncedAt = none ∧ r.lastError = none)

/-- getFailedSyncs: ynab_synced_at IS NULL OR ynab_sync_error IS NOT
NULL (the retry selection). -/
def failedSel (s : List TxRow) : List TxRow :=
  s.filter (fun r => r.syncedAt = none ∨ r.lastError ≠ none)

/-- A row the engine may update: it lies in one of the two
selections (the pending selection is contained in this one).  Both
status-update statements are only ever run on rows just returned by
getUnsyncedTransactions or getFailedSyncs. -/
def selectable (r : TxRow) : Prop := r.syncedAt = none ∨ r.lastError ≠ none

/-- One engine step on the transactions table: an insert-if-absent of
a parsed transaction, or a per-row status update applied to a
selected row. -/
inductive SyncStep : List TxRow → List TxRow → Prop
  | insert (s : List TxRow) (t : Transaction) : SyncStep s (insertIfAbsent s t).1
  | recSynced (s : List TxRow) (i ynabId : String) (now : ℕ)
      (hsel : ∀ r ∈ s, r.tx.id = i → selectable r) :
      SyncStep s (recordSynced s i ynabId now)
  | recFailed (s : List TxRow) (i e : String) (k : ErrorType) (now : ℕ)
      (hsel : ∀ r ∈ s, r.tx.id = i → selectable r) :
      SyncStep s (recordError s i e k now)

/-- Multi-step reachability between table states. -/
inductive SyncReachFrom : List TxRow → List TxRow → Prop
  | refl (s : List TxRow) : SyncReachFrom s s
  | tail {s t u : List TxRow} : SyncReachFrom s t → SyncStep t u → SyncReachFrom s u

/-- Reachability from the empty table. -/
def SyncReach (s : List TxRow) : Prop := SyncReachFrom [] s

/-- A record is pending iff syncedAt IS NULL AND lastError IS NULL. -/
def rowPending (r : TxRow) : Prop := r.syncedAt = none ∧ r.lastError = none

/-- A record is failed iff lastError IS NOT NULL. -/
def rowFailed (r : TxRow) : Prop := r.lastError ≠ none

/-- A record is synced iff the ledger transaction id IS NOT NULL. -/
def rowSynced (r : TxRow) : Prop := r.ynabTransactionId ≠ none

/-- Row invariant maintained by the engine: a ledger id only ever
comes with a synced stamp and a clear error, and a synced stamp only
ever comes with a ledger id or an error. -/
def rowInv (r : TxRow) : Prop :=
  (r.ynabTransactionId ≠ none → r.syncedAt ≠ none ∧ r.lastError = none) ∧
  (r.syncedAt ≠ none → r.ynabTransactionId ≠ none ∨ r.lastError ≠ none)

/-! ## Rules engine (src/rules/engine.ts) -/

/-- A normalization rule: matchPat models the match field (a regex
source tested with the i flag), payee an optional full replacement,
memo an optional append. -/
structure Rule where
  matchPat : String
  payee : Option String
  memo : Option String
deriving DecidableEq, Repr

/-- One loop iteration of RulesEngine.apply: when the rule regex
tests true against the current payee, a truthy (nonempty) payee
replacement fully overwrites the payee, and a truthy memo is
appended, joined with a space onto a truthy current memo.  The regex
test is a parameter; regexTestCI models it for literal patterns. -/
def applyRule (test : String → String → Bool) (r : Rule) (t : Transaction) : Transaction :=
  if test r.matchPat t.payee then
    let t1 := match r.payee with
      | some p => if p ≠ "" then { t with payee := p } else t
      | none => t
    match r.memo with
    | some m =>
      if m ≠ "" then { t1 with memo := (if t1.memo ≠ "" then t1.memo ++ " " else "") ++ m }
      else t1
    | none => t1
  else t

/-- RulesEngine.apply: fold the ordered rule list left to right over
a copy of the transaction. -/
def rulesApply (test : String → String → Bool) (rules : List Rule) (t : Transaction) :
    Transaction :=
  rules.foldl (fun acc r => applyRule test r acc) t

/-! ## YNAB client (src/ynab/client.ts) -/

/-- Math.round (JS): half rounds toward positive infinity. -/
def jsRound (q : ℚ) : ℤ := ⌊q + 1 / 2⌋

/-- toMilliunits: round(amount * 1000). -/
def toMilliunits (amount : ℚ) : ℤ := jsRound (amount * 1000)

/-- The transaction payload sent to the ledger. -/
structure SaveTransaction where
  account_id : String
  date : String
  amount : ℤ
  payee_name : String
  memo : Option String
deriving DecidableEq, Repr

/-- Association-list lookup (object property access by key). -/
def lookupStr (m : List (String × α)) (k : String) : Option α :=
  (m.find? (fun p => p.1 = k)).map (·.2)

/-- getYNABAccountId: the account mapping of the bank account (the
empty string when the transaction has no account). -/
def getYNABAccountId (mappings : List (String × String)) (acct : Option String) :
    Option String :=
  lookupStr mappings (acct.getD "")

/-- The payload built by createTransaction: the direction decides the
sign of the milliunit amount; an empty memo becomes undefined; no
payload is built without an account mapping (createTransaction then
returns null). -/
def createTransactionPayload (mappings : List (String × String)) (t : Transaction) :
    Option SaveTransaction :=
  (getYNABAccountId mappings t.account).map (fun aid =>
    { account_id := aid, date := t.date,
      amount := if t.direction = .outflow then -(toMilliunits t.amount) else toMilliunits t.amount,
      payee_name := t.payee, memo := if t.memo = "" then none else some t.memo })

/-! ## Batch submission with per-row fallback
(the catch blocks of sync and retryYNABSync in src/cli/commands.ts) -/

/-- Outcome of one submission phase: per-transaction ledger ids,
per-transaction classified errors, and the transactions submitted
individually during the fallback. -/
structure SyncOutcome where
  syncResults : List (String × String)
  syncErrors : List (String × AppError)
  attempted : List Transaction

/-- The per-row fallback loop: every transaction of the group is
submitted through the oracle indiv (modelling
ynabClient.createTransaction); an ok id goes into syncResults, a
thrown classified error goes into syncErrors, an ok null (missing
mapping) into neither; a failure never stops the loop. -/
def individualFallback (rows : List Transaction)
    (indiv : Transaction → Except AppError (Option String)) : SyncOutcome :=
  { syncResults := rows.filterMap (fun t =>
      (match indiv t with
        | .ok (some y) => some y
        | _ => none).map (fun y => (t.id, y))),
    syncErrors := rows.filterMap (fun t =>
      (match indiv t with
        | .error e => some e
        | _ => none).map (fun e => (t.id, e))),
    attempted := rows }

/-- Handling of a failed batch call: if the classified error is
retryable and the group has more than one row, degrade to per-row
submission; else record the same classified error for every row of
the group and attempt nothing individually. -/
def handleBatchFailure (rows : List Transaction) (e : AppError)
    (indiv : Transaction → Except AppError (Option String)) : SyncOutcome :=
  if e.retryable ∧ rows.length > 1 then individualFallback rows indiv
  else { syncResults := [], syncErrors := rows.map (fun t => (t.id, e)), attempted := [] }

/-- The submission phase: the batch result map on success, else the
batch-failure handling. -/
def submitPhase (rows : List Transaction) (batch : Except AppError (List (String × String)))
    (indiv : Transaction → Except AppError (Option String)) : SyncOutcome :=
  match batch with
  | .ok m => { syncResults := m, syncErrors := [], attempted := [] }
  | .error e => handleBatchFailure rows e indiv

/-- What the write-back loop records for one row: a ledger id records
synced; else a collected error records failed; else a missing account
mapping synthesizes a configuration error; else the row is left
untouched. -/
inductive RowOutcome where
  | syncedOut (ynabId : String)
  | failedOut (e : AppError)
  | configErrorOut
  | untouched
deriving DecidableEq, Repr

/-- The write-back decision for one row of the group. -/
def rowOutcome (o : SyncOutcome) (mappings : List (String × String)) (t : Transaction) :
    RowOutcome :=
  match lookupStr o.syncResults t.id with
  | some y => .syncedOut y
  | none =>
    match lookupStr o.syncErrors t.id with
    | some e => .failedOut e
    | none =>
      if (getYNABAccountId mappings t.account).isSome then .untouched else .configErrorOut

/-! ## Concrete fixtures used by witnesses and counterexamples -/

/-- A small concrete transaction with a literal amount. -/
def txSmall : Transaction :=
  { id := "t1", bank := "BHD", account := some "0014", date := "2026-01-05",
    payee := "JUAN PEREZ", memo := "", amount := 5, currency := "DOP",
    direction := .outflow, rawMessageId := "m1", rawThreadId := "h1" }

/-- Three distinct-id transactions forming a batch group. -/
def txA : Transaction := { txSmall with id := "a", rawMessageId := "ma" }

/-- Second row of the batch group. -/
def txB : Transaction := { txSmall with id := "b", rawMessageId := "mb" }

/-- Third row of the batch group, with an unmapped account. -/
def txC : Transaction := { txSmall with id := "c", account := some "7777" }

/-- A retryable classified error. -/
def appErrRetry : AppError :=
  { errType := .NETWORK_ERROR, message := "socket hang up", retryable := true }

/-- A non-retryable classified error. -/
def appErrVal : AppError :=
  { errType := .VALIDATION_ERROR, message := "bad payee", retryable := false }

/-- An individual-submission oracle: txA succeeds, txB throws, txC
returns null (missing mapping). -/
def indivEx : Transaction → Except AppError (Option String) :=
  fun t => if t.id = "a" then .ok (some "y-a")
    else if t.id = "b" then .error appErrVal
    else .ok none

/-- A concrete account-mapping table. -/
def mapEx : List (String × String) := [("0014", "ynab-0014")]

/-- A transfer document: origin 0014 (mine), destination 9999 (not
mine), amount 500.00, date 2026-01-05. -/
def bhdDocC2 : BhdDoc :=
  { subject := "Transferencias a terceros", hasHtml := true,
    text := ("Producto origen: XXXXXXXX0014  Producto destino: XXXXXXXX9999 "
      ++ "Monto: RD$ 500.00 Fecha y hora de la transacción: 05/01/2026 - 10:15 am "
      ++ "Beneficiario: JUAN PEREZ Número de confirmación: 123456").toList,
    rows := [], msgId := "m-c2", threadId := "h-c2" }

/-- A transfer document in which neither instrument is mine. -/
def bhdNeitherDoc : BhdDoc :=
  { subject := "Transferencias a terceros", hasHtml := true,
    text := ("Producto origen: XXXXXXXX8888  Producto destino: XXXXXXXX9999 "
      ++ "Monto: RD$ 500.00 Fecha y hora de la transacción: 05/01/2026 - 10:15 am "
      ++ "Beneficiario: JUAN PEREZ Número de confirmación: 123456").toList,
    rows := [], msgId := "m-c4", threadId := "h-c4" }

/-- A transfer document with an explicit date token that the
dd/MM/yyyy hh:mm a parse rejects (day 99). -/
def bhdBadDateDoc : BhdDoc :=
  { subject := "Transferencias a terceros", hasHtml := true,
    text := ("Producto origen: XXXXXXXX0014  Producto destino: XXXXXXXX9999 "
      ++ "Monto: RD$ 500.00 Fecha y hora de la transacción: 99/12/2025 - 11:29 pm "
      ++ "Beneficiario: JUAN PEREZ Número de confirmación: 123456").toList,
    rows := [], msgId := "m-c5", threadId := "h-c5" }

/-- A transfer document with no amount pattern. -/
def bhdNoAmtDoc : BhdDoc :=
  { subject := "Transferencias a terceros", hasHtml := true,
    text := ("Producto origen: XXXXXXXX0014 Producto destino: XXXXXXXX9999 "
      ++ "Beneficiario: JUAN PEREZ").toList,
    rows := [], msgId := "m-c6b", threadId := "h-c6b" }

/-- A Caribe document whose amount has three decimal digits and
which has no explicit date token (received 2025-11-07 12:00). -/
def caribeSmallAmtDoc : MailDoc :=
  { subject := "Notificación Caribe", hasHtml := true,
    text := ("Tarjeta terminada en 1469 Comercio: DOMEX COURIER Monto: 1.005 "
      ++ "Moneda: DOP").toList,
    received := jsDateMin 2025 10 7 12 0, msgId := "m-c6", threadId := "h-c6" }

/-- A Caribe document with explicit Fecha and Hora tokens. -/
def caribeFechaDoc : MailDoc :=
  { subject := "Notificación Caribe", hasHtml := true,
    text := ("Tarjeta terminada en 1469 Comercio: DOMEX COURIER Monto: 14,920.82 "
      ++ "Moneda: DOP Fecha: 07/11/2025 Hora: 12:42:46").toList,
    received := jsDateMin 2025 11 24 9 30, msgId := "m-c5a", threadId := "h-c5a" }

/-- A Caribe document with an explicit Fecha token but no Hora token
(received 2025-12-24 09:30). -/
def caribeFechaNoHoraDoc : MailDoc :=
  { subject := "Notificación Caribe", hasHtml := true,
    text := ("Tarjeta terminada en 1469 Comercio: DOMEX COURIER Monto: 14,920.82 "
      ++ "Moneda: DOP Fecha: 07/11/2025").toList,
    received := jsDateMin 2025 11 24 9 30, msgId := "m-c5b", threadId := "h-c5b" }

/-- A Caribe document with a card ending but no amount pattern. -/
def caribeNoAmtDoc : MailDoc :=
  { subject := "Notificación Caribe", hasHtml := true,
    text := "Tarjeta terminada en 1469 Comercio: DOMEX COURIER".toList,
    received := jsDateMin 2025 10 7 12 0, msgId := "m-c6c", threadId := "h-c6c" }

/-- A QIK document with a card ending but no amount pattern. -/
def qikNoAmtDoc : MailDoc :=
  { subject := "Usaste tu tarjeta de crédito Qik", hasHtml := true,
    text := "Tarjeta 53*************5550 Localidad: RD VIAL APP con tu tarjeta".toList,
    received := jsDateMin 2025 11 29 8 49, msgId := "m-c6d", threadId := "h-c6d" }

/-- The transactions-table row that record-error produces from a
fresh row of txSmall at time 5. -/
def rowErrEx : TxRow :=
  { tx := txSmall, ynabTransactionId := none, syncedAt := some 5,
    lastError := some "boom", lastErrorType := some .NETWORK_ERROR,
    retryCount := 1, lastRetry := some 5 }

/-- Two normalization rules demonstrating composition: the second
rewrites the payee produced by the first. -/
def ruleEx1 : Rule := { matchPat := "MCDONALDS", payee := some "McD", memo := some "fast food" }

/-- The second rule of the composition fixture. -/
def ruleEx2 : Rule := { matchPat := "mcd", payee := some "Golden Arches", memo := none }

/-- A transaction whose payee the rules fixture rewrites. -/
def txPayee : Transaction := { txSmall with payee := "MCDONALDS NUNEZ DE C", memo := "x" }

/-! ## Theorems -/

/-- Claim C8: the amount submitted to the ledger is
round(amount * 1000) with the sign flipped to negative exactly for
outflow, and converting an amount with at most two decimal places
(any n / 100) to milliunits and back is exact. -/
theorem c8_milliunit_conversion :
    (∀ (mappings : List (String × String)) (t : Transaction) (st : SaveTransaction),
      createTransactionPayload mappings t = some st →
        st.amount = (if t.direction = .outflow then -1 else 1) * jsRound (t.amount * 1000)) ∧
    (∀ n : ℤ, ((toMilliunits ((n : ℚ) / 100) : ℚ) / 1000) = (n : ℚ) / 100) := by
  constructor
  · intro mappings t st h
    unfold createTransactionPayload at h
    cases hm : getYNABAccountId mappings t.account with
    | none => rw [hm] at h; exact Option.noConfusion h
    | some aid =>
      rw [hm] at h
      simp only [Option.map_some', Option.some.injEq] at h
      subst h
      cases t.direction <;> simp [toMilliunits]
  · intro n
    have h1 : ((n : ℚ) / 100) * 1000 = ((10 * n : ℤ) : ℚ) := by push_cast; ring
    unfold toMilliunits jsRound
    rw [h1]
    have h2 : ((10 * n : ℤ) : ℚ) + 1 / 2 = 1 / 2 + ((10 * n : ℤ) : ℚ) := by ring
    rw [h2, Int.floor_add_int]
    norm_num
    ring

/-- Witness for C8: concrete payload for the outflow fixture and the
round trip at 1234.56. -/
theorem c8_milliunit_conversion_witness :
    ((createTransactionPayload mapEx txSmall).get (by decide)).amount
        = (if txSmall.direction = .outflow then -1 else 1) * jsRound (txSmall.amount * 1000)
    ∧ ((toMilliunits (((123456 : ℤ) : ℚ) / 100) : ℚ) / 1000) = ((123456 : ℤ) : ℚ) / 100 :=
  ⟨c8_milliunit_conversion.1 mapEx txSmall _ (Option.some_get (by decide)).symm,
   c8_milliunit_conversion.2 123456⟩

/-- The case-insensitive prefix test depends only on the lowered
text. -/
theorem startsWithCI_lc (pat s : List Char) :
    startsWithCI pat s = pat.isPrefixOf ((lcList s).take pat.length) := by
  unfold startsWithCI lcList
  rw [List.map_take]

/-- The case-insensitive substring test depends only on the lowered
text. -/
theorem containsCIList_lc (pat : List Char) :
    ∀ s1 s2 : List Char, lcList s1 = lcList s2 →
      containsCIList pat s1 = containsCIList pat s2 := by
  intro s1
  induction s1 with
  | nil =>
    intro s2 h
    have : s2 = [] := by
      cases s2 with
      | nil => rfl
      | cons d ds => exact absurd h.symm (by simp [lcList])
    subst this
    rfl
  | cons c cs ih =>
    intro s2 h
    cases s2 with
    | nil => exact absurd h (by simp [lcList])
    | cons d ds =>
      have hds : lcList cs = lcList ds := by
        have := h
        simp only [lcList, List.map_cons, List.cons.injEq] at this
        exact this.2
      unfold containsCIList
      rw [startsWithCI_lc, startsWithCI_lc, h, ih ds hds]

/-- Claim C9: the normalization engine folds the ordered rule list
left to right over the transaction: a matching rule fully overwrites
the payee and appends (never overwrites) the memo before the next
rule is evaluated; the regex test is case-insensitive (it depends
only on the lowered payee); a later rule tests against, and can
overwrite, the payee produced by earlier rules. -/
theorem c9_rules_engine :
    (∀ (test : String → String → Bool) (r : Rule) (rules : List Rule) (t : Transaction),
      rulesApply test (r :: rules) t = rulesApply test rules (applyRule test r t)) ∧
    (∀ (test : String → String → Bool) (r : Rule) (t : Transaction) (p : String),
      test r.matchPat t.payee = true → r.payee = some p → p ≠ "" →
      (applyRule test r t).payee = p) ∧
    (∀ (test : String → String → Bool) (r : Rule) (t : Transaction) (m : String),
      test r.matchPat t.payee = true → r.memo = some m → m ≠ "" →
      (applyRule test r t).memo = (if t.memo ≠ "" then t.memo ++ " " else "") ++ m) ∧
    (∀ (test : String → String → Bool) (r : Rule) (t : Transaction),
      test r.matchPat t.payee = false → applyRule test r t = t) ∧
    (∀ (pat s1 s2 : String), lcStr s1 = lcStr s2 → regexTestCI pat s1 = regexTestCI pat s2) ∧
    (∀ (test : String → String → Bool) (r1 r2 : Rule) (t : Transaction) (p2 : String),
      test r2.matchPat (applyRule test r1 t).payee = true → r2.payee = some p2 → p2 ≠ "" →
      (rulesApply test [r1, r2] t).payee = p2) := by
  have hpayee : ∀ (test : String → String → Bool) (r : Rule) (t : Transaction) (p : String),
      test r.matchPat t.payee = true → r.payee = some p → p ≠ "" →
      (applyRule test r t).payee = p := by
    intro test r t p h hp hne
    unfold applyRule
    rw [h, hp, if_pos rfl]
    cases hm : r.memo with
    | none => simp [hne]
    | some m => by_cases hm2 : m = "" <;> simp [hne, hm2]
  refine ⟨?_, hpayee, ?_, ?_, ?_, ?_⟩
  · intro test r rules t
    rfl
  · intro test r t m h hm hne
    unfold applyRule
    rw [h, hm, if_pos rfl]
    cases hp : r.payee with
    | none => simp [hne]
    | some p => by_cases hp2 : p = "" <;> simp [hp2, hne]
  · intro test r t h
    unfold applyRule
    rw [h]
    simp
  · intro pat s1 s2 h
    unfold regexTestCI
    apply containsCIList_lc
    have h2 : (lcStr s1).toList = (lcStr s2).toList := by rw [h]
    simpa [lcStr] using h2
  · intro test r1 r2 t p2 h hp hne
    exact hpayee test r2 (applyRule test r1 t) p2 h hp hne

/-- Witness for C9: the fixture rules compose left to right on the
fixture transaction, the second rule overwriting the first rewrite. -/
theorem c9_rules_engine_witness :
    (applyRule regexTestCI ruleEx1 txPayee).payee = "McD"
    ∧ (applyRule regexTestCI ruleEx1 txPayee).memo
        = (if txPayee.memo ≠ "" then txPayee.memo ++ " " else "") ++ "fast food"
    ∧ regexTestCI "mc" "MCDONALDS" = regexTestCI "mc" "McDonalds"
    ∧ (rulesApply regexTestCI [ruleEx1, ruleEx2] txPayee).payee = "Golden Arches" :=
  ⟨c9_rules_engine.2.1 regexTestCI ruleEx1 txPayee "McD" (by decide) rfl (by decide),
   c9_rules_engine.2.2.1 regexTestCI ruleEx1 txPayee "fast food" (by decide) rfl (by decide),
   c9_rules_engine.2.2.2.2.1 "mc" "MCDONALDS" "McDonalds" (by decide),
   c9_rules_engine.2.2.2.2.2 regexTestCI ruleEx1 ruleEx2 txPayee "Golden Arches"
     (by decide) rfl (by decide)⟩

/-- The id of every successful BHD transfer parse is the fingerprint
of the record's own (bank, account, date, amount, payee, direction)
tuple; in the third-party branch the fingerprint is built from the
origin account precisely because the account field is overwritten to
the origin. -/
theorem bhdParseTransfer_id (msg : BhdDoc) (tx : Transaction)
    (h : bhdParseTransfer msg = some tx) :
    tx.bank = "BHD" ∧
      tx.id = mkFingerprint "BHD" tx.account tx.date tx.amount tx.payee tx.direction := by
  unfold bhdParseTransfer at h
  dsimp only at h
  split at h
  · exact Option.noConfusion h
  · split at h
    · injection h with h2
      subst h2
      exact ⟨rfl, rfl⟩
    · injection h with h2
      subst h2
      exact ⟨rfl, rfl⟩

/-- The id of every successful BHD tabular parse is the fingerprint
of the record's own tuple. -/
theorem bhdParseNotification_id (msg : BhdDoc) (tx : Transaction)
    (h : bhdParseNotification msg = some tx) :
    tx.bank = "BHD" ∧
      tx.id = mkFingerprint "BHD" tx.account tx.date tx.amount tx.payee tx.direction := by
  unfold bhdParseNotification at h
  dsimp only at h
  split at h
  · exact Option.noConfusion h
  · split at h
    · exact Option.noConfusion h
    · injection h with h2
      subst h2
      exact ⟨rfl, rfl⟩

/-- The id of every successful BHD parse is the fingerprint of the
record's own tuple. -/
theorem bhdParse_id (msg : BhdDoc) (tx : Transaction) (h : bhdParse msg = some tx) :
    tx.bank = "BHD" ∧
      tx.id = mkFingerprint "BHD" tx.account tx.date tx.amount tx.payee tx.direction := by
  unfold bhdParse at h
  split_ifs at h
  · exact bhdParseTransfer_id msg tx h
  · exact bhdParseNotification_id msg tx h

/-- Claim C1: two BHD documents whose parsed tuples agree get equal
fingerprint ids (the id is a pure function of the tuple), and
inserting a transaction twice through insert-if-absent leaves exactly
one stored row, the second insert being a success-no-op returning the
unchanged table. -/
theorem c1_fingerprint_idempotent :
    (∀ (d1 d2 : BhdDoc) (t1 t2 : Transaction),
      bhdParse d1 = some t1 → bhdParse d2 = some t2 →
      t1.account = t2.account → t1.date = t2.date → t1.amount = t2.amount →
      t1.payee = t2.payee → t1.direction = t2.direction →
      t1.id = t2.id) ∧
    (∀ (s : List TxRow) (t : Transaction),
      s.countP (fun r => r.tx.id = t.id) = 0 →
      insertIfAbsent (insertIfAbsent s t).1 t = ((insertIfAbsent s t).1, false) ∧
      (insertIfAbsent s t).1.countP (fun r => r.tx.id = t.id) = 1) := by
  constructor
  · intro d1 d2 t1 t2 h1 h2 ha hd hm hp hdir
    obtain ⟨_, hid1⟩ := bhdParse_id d1 t1 h1
    obtain ⟨_, hid2⟩ := bhdParse_id d2 t2 h2
    rw [hid1, hid2, ha, hd, hm, hp, hdir]
  · intro s t h
    have hnone : ∀ r ∈ s, ¬ (r.tx.id = t.id) := by
      rw [List.countP_eq_zero] at h
      intro r hr
      simpa using h r hr
    have hany : (s.any (fun r => r.tx.id = t.id)) = false := by
      rw [List.any_eq_false]
      intro r hr
      simpa using hnone r hr
    have hfirst : insertIfAbsent s t = (s ++ [freshRow t], true) := by
      unfold insertIfAbsent
      rw [hany]
      rfl
    have hany2 : ((s ++ [freshRow t]).any (fun r => r.tx.id = t.id)) = true := by
      rw [List.any_append]
      simp [freshRow]
    constructor
    · rw [hfirst]
      unfold insertIfAbsent
      rw [hany2]
      rfl
    · rw [hfirst]
      rw [List.countP_append, h]
      simp [freshRow]

/-- Witness for C1: the transfer fixture parses, its id agrees with
itself through the tuple, and the double insert of the small fixture
into the empty table keeps one row and no-ops the second time. -/
theorem c1_fingerprint_idempotent_witness :
    ((bhdParse bhdDocC2).get (by decide)).id = ((bhdParse bhdDocC2).get (by decide)).id ∧
    (insertIfAbsent (insertIfAbsent [] txSmall).1 txSmall
        = ((insertIfAbsent [] txSmall).1, false) ∧
      (insertIfAbsent [] txSmall).1.countP (fun r => r.tx.id = txSmall.id) = 1) :=
  ⟨c1_fingerprint_idempotent.1 bhdDocC2 bhdDocC2 _ _
      (Option.some_get (by decide)).symm (Option.some_get (by decide)).symm
      rfl rfl rfl rfl rfl,
   c1_fingerprint_idempotent.2 [] txSmall rfl⟩

/-- A lookup misses every association list whose keys all differ
from the key. -/
theorem lookupStr_eq_none {α : Type} {l : List (String × α)} {k : String}
    (h : ∀ p ∈ l, p.1 ≠ k) : lookupStr l k = none := by
  unfold lookupStr
  rw [List.find?_eq_none.mpr]
  · rfl
  · intro p hp
    simpa using h p hp

/-- Looking up a row's id in an id-keyed filterMap of a
distinct-id row list gives exactly that row's entry. -/
theorem lookupStr_keyed_filterMap {α : Type} (g : Transaction → Option α) :
    ∀ (rows : List Transaction) (t : Transaction), t ∈ rows →
      (rows.map Transaction.id).Nodup →
      lookupStr (rows.filterMap (fun u => (g u).map (fun a => (u.id, a)))) t.id = g t := by
  intro rows
  induction rows with
  | nil => intro t ht; exact absurd ht (List.not_mem_nil t)
  | cons r rest ih =>
    intro t ht hn
    rw [show List.map Transaction.id (r :: rest) = r.id :: rest.map Transaction.id from rfl]
      at hn
    have hn1 : r.id ∉ rest.map Transaction.id := (List.nodup_cons.mp hn).1
    have hn2 : (rest.map Transaction.id).Nodup := (List.nodup_cons.mp hn).2
    rw [List.filterMap_cons]
    cases hgr : g r with
    | some a =>
      simp only [Option.map_some']
      rcases List.mem_cons.mp ht with rfl | htr
      · unfold lookupStr
        simp
        exact hgr.symm
      · have hne : r.id ≠ t.id := by
          intro hEq
          exact hn1 (hEq ▸ List.mem_map_of_mem Transaction.id htr)
        unfold lookupStr
        rw [List.find?_cons_of_neg _ (by simpa using hne)]
        exact ih t htr hn2
    | none =>
      simp only [Option.map_none']
      rcases List.mem_cons.mp ht with rfl | htr
      · rw [hgr]
        apply lookupStr_eq_none
        intro p hp
        obtain ⟨u, hu, hup⟩ := List.mem_filterMap.mp hp
        cases hgu : g u with
        | none => rw [hgu] at hup; exact Option.noConfusion hup
        | some b =>
          rw [hgu] at hup
          injection hup with hup2
          intro hcontra
          apply hn1
          rw [← hcontra, ← hup2]
          exact List.mem_map_of_mem Transaction.id hu
      · exact ih t htr hn2

/-- Looking up any group row's id in the everyone-gets-e error map
yields that same error. -/
theorem lookupStr_const_map (e : AppError) :
    ∀ (rows : List Transaction) (t : Transaction), t ∈ rows →
      lookupStr (rows.map (fun u => (u.id, e))) t.id = some e := by
  intro rows
  induction rows with
  | nil => intro t ht; exact absurd ht (List.not_mem_nil t)
  | cons r rest ih =>
    intro t ht
    rw [List.map_cons]
    by_cases hEq : r.id = t.id
    · unfold lookupStr
      rw [List.find?_cons_of_pos _ (by simpa using hEq)]
      rfl
    · rcases List.mem_cons.mp ht with rfl | htr
      · exact absurd rfl hEq
      · unfold lookupStr
        rw [List.find?_cons_of_neg _ (by simpa using hEq)]
        exact ih t htr

/-- Claim C3: when the batch submission of a group fails with a
retryable classified error and the group has more than one row, the
engine submits every row individually and each row's write-back
outcome is exactly the outcome of its own individual submission (one
row's failure does not abort the others); when the error is
non-retryable or the group has exactly one row, nothing is attempted
individually and every row is marked failed with that same classified
error. -/
theorem c3_batch_fallback (rows : List Transaction) (e : AppError)
    (indiv : Transaction → Except AppError (Option String))
    (mappings : List (String × String)) :
    (e.retryable = true → rows.length > 1 → (rows.map Transaction.id).Nodup →
      (submitPhase rows (.error e) indiv).attempted = rows ∧
      ∀ t ∈ rows,
        rowOutcome (submitPhase rows (.error e) indiv) mappings t =
          match indiv t with
          | .ok (some y) => .syncedOut y
          | .error e2 => .failedOut e2
          | .ok none =>
            if (getYNABAccountId mappings t.account).isSome then .untouched
            else .configErrorOut) ∧
    (e.retryable = false ∨ rows.length = 1 →
      (submitPhase rows (.error e) indiv).attempted = [] ∧
      ∀ t ∈ rows, rowOutcome (submitPhase rows (.error e) indiv) mappings t = .failedOut e) := by
  constructor
  · intro hret hlen hn
    have hcond : (e.retryable ∧ rows.length > 1) := ⟨by simpa using hret, hlen⟩
    have hsub : submitPhase rows (.error e) indiv = individualFallback rows indiv := by
      unfold submitPhase handleBatchFailure
      dsimp only
      rw [if_pos hcond]
    rw [hsub]
    refine ⟨rfl, ?_⟩
    intro t ht
    unfold rowOutcome individualFallback
    have hres := lookupStr_keyed_filterMap
      (fun u => match indiv u with | .ok (some y) => some y | _ => none) rows t ht hn
    have herr := lookupStr_keyed_filterMap
      (fun u => match indiv u with | .error e2 => some e2 | _ => none) rows t ht hn
    simp only [hres, herr]
    cases hiv : indiv t with
    | ok o =>
      cases o with
      | some y => rfl
      | none => rfl
    | error e2 => rfl
  · intro hor
    have hcond : ¬ (e.retryable ∧ rows.length > 1) := by
      rcases hor with hf | h1
      · intro hc; rw [hf] at hc; exact Bool.noConfusion hc.1
      · intro hc; rw [h1] at hc; exact absurd hc.2 (by omega)
    have hsub : submitPhase rows (.error e) indiv
        = { syncResults := [], syncErrors := rows.map (fun t => (t.id, e)), attempted := [] } := by
      unfold submitPhase handleBatchFailure
      dsimp only
      rw [if_neg hcond]
    rw [hsub]
    refine ⟨rfl, ?_⟩
    intro t ht
    unfold rowOutcome
    have herr := lookupStr_const_map e rows t ht
    simp only [herr]
    rfl

/-- Witness for C3: a three-row group under a retryable batch failure
degrades to per-row outcomes (success, validation failure, missing
mapping), and a one-row group under the same failure, as well as any
group under a non-retryable failure, is marked failed wholesale. -/
theorem c3_batch_fallback_witness :
    ((submitPhase [txA, txB, txC] (.error appErrRetry) indivEx).attempted = [txA, txB, txC] ∧
      ∀ t ∈ [txA, txB, txC],
        rowOutcome (submitPhase [txA, txB, txC] (.error appErrRetry) indivEx) mapEx t =
          match indivEx t with
          | .ok (some y) => .syncedOut y
          | .error e2 => .failedOut e2
          | .ok none =>
            if (getYNABAccountId mapEx t.account).isSome then .untouched
            else .configErrorOut) ∧
    ((submitPhase [txA] (.error appErrVal) indivEx).attempted = [] ∧
      ∀ t ∈ [txA], rowOutcome (submitPhase [txA] (.error appErrVal) indivEx) mapEx t
        = .failedOut appErrVal) :=
  ⟨(c3_batch_fallback [txA, txB, txC] appErrRetry indivEx mapEx).1 (by decide) (by decide)
      (by decide),
   (c3_batch_fallback [txA] appErrVal indivEx mapEx).2 (Or.inl (by decide))⟩

/-- A fresh row satisfies the row invariant. -/
theorem freshRow_inv (t : Transaction) : rowInv (freshRow t) := by
  constructor
  · intro h
    exact absurd rfl h
  · intro h
    exact absurd rfl h

/-- Membership after insert-if-absent: an old row or the fresh row. -/
theorem mem_insertIfAbsent {s : List TxRow} {t : Transaction} {r : TxRow}
    (hr : r ∈ (insertIfAbsent s t).1) : r ∈ s ∨ r = freshRow t := by
  unfold insertIfAbsent at hr
  by_cases hc : (s.any (fun r => r.tx.id = t.id)) = true
  · rw [if_pos hc] at hr
    exact Or.inl hr
  · rw [if_neg hc] at hr
    rcases List.mem_append.mp hr with h | h
    · exact Or.inl h
    · exact Or.inr (List.mem_singleton.mp h)

/-- Every engine step preserves the row invariant. -/
theorem syncStep_inv {s u : List TxRow} (hstep : SyncStep s u)
    (hinv : ∀ r ∈ s, rowInv r) : ∀ r ∈ u, rowInv r := by
  cases hstep with
  | insert t =>
    intro r hr
    rcases mem_insertIfAbsent hr with h | h
    · exact hinv r h
    · rw [h]
      exact freshRow_inv t
  | recSynced i y now hsel =>
    intro r hr
    obtain ⟨r0, hr0, heq⟩ := List.mem_map.mp hr
    by_cases hid : r0.tx.id = i
    · rw [if_pos hid] at heq
      rw [← heq]
      constructor
      · intro _
        exact ⟨by simp, rfl⟩
      · intro _
        exact Or.inl (by simp)
    · rw [if_neg hid] at heq
      rw [← heq]
      exact hinv r0 hr0
  | recFailed i e k now hsel =>
    intro r hr
    obtain ⟨r0, hr0, heq⟩ := List.mem_map.mp hr
    by_cases hid : r0.tx.id = i
    · rw [if_pos hid] at heq
      have hynab : r0.ynabTransactionId = none := by
        by_contra hne
        obtain ⟨hsynced, herrnone⟩ := (hinv r0 hr0).1 hne
        rcases hsel r0 hr0 hid with hs | he
        · exact hsynced hs
        · exact he herrnone
      rw [← heq]
      constructor
      · intro hcontra
        rw [hynab] at hcontra
        exact absurd rfl hcontra
      · intro _
        exact Or.inr (by simp)
    · rw [if_neg hid] at heq
      rw [← heq]
      exact hinv r0 hr0

/-- Reachability preserves the row invariant. -/
theorem syncReachFrom_inv {s u : List TxRow} (h : SyncReachFrom s u)
    (hs : ∀ r ∈ s, rowInv r) : ∀ r ∈ u, rowInv r := by
  induction h with
  | refl => exact hs
  | tail hreach hstep ih => exact syncStep_inv hstep ih

/-- Every row of a table reachable from the empty table satisfies the
row invariant. -/
theorem syncReach_inv {s : List TxRow} (h : SyncReach s) : ∀ r ∈ s, rowInv r :=
  syncReachFrom_inv h (fun r hr => absurd hr (List.not_mem_nil r))

/-- Claim C7: in every table state reachable through insert-if-absent,
record-synced and record-error from the empty table, each row is in
at least one of the three states, pending and failed are mutually
exclusive, and a synced row is neither pending nor failed. -/
theorem c7_state_partition (s : List TxRow) (h : SyncReach s) :
    ∀ r ∈ s,
      (rowPending r ∨ rowFailed r ∨ rowSynced r) ∧
      ¬ (rowPending r ∧ rowFailed r) ∧
      (rowSynced r → ¬ rowPending r ∧ ¬ rowFailed r) := by
  intro r hr
  obtain ⟨hinv1, hinv2⟩ := syncReach_inv h r hr
  refine ⟨?_, ?_, ?_⟩
  · by_cases hsy : r.ynabTransactionId = none
    · by_cases herr : r.lastError = none
      · left
        refine ⟨?_, herr⟩
        by_cases hsa : r.syncedAt = none
        · exact hsa
        · rcases hinv2 hsa with h1 | h2
          · exact absurd hsy h1
          · exact absurd herr h2
      · right; left; exact herr
    · right; right; exact hsy
  · rintro ⟨⟨_, herr⟩, hfail⟩
    exact hfail herr
  · intro hsyn
    obtain ⟨hsa, herr⟩ := hinv1 hsyn
    exact ⟨fun hp => hsa hp.1, fun hf => hf herr⟩

/-- Witness for C7: the table after one insert into the empty table
is reachable, and its single row satisfies the partition. -/
theorem c7_state_partition_witness :
    (rowPending (freshRow txSmall) ∨ rowFailed (freshRow txSmall) ∨ rowSynced (freshRow txSmall)) ∧
    ¬ (rowPending (freshRow txSmall) ∧ rowFailed (freshRow txSmall)) ∧
    (rowSynced (freshRow txSmall) →
      ¬ rowPending (freshRow txSmall) ∧ ¬ rowFailed (freshRow txSmall)) :=
  c7_state_partition (insertIfAbsent [] txSmall).1
    (SyncReachFrom.tail (SyncReachFrom.refl []) (SyncStep.insert [] txSmall))
    (freshRow txSmall)
    (List.mem_append_right [] (List.mem_singleton.mpr rfl))

/-- One engine step preserves, for a given id, both the existence of
a row with that id and the synced stamp on every such row. -/
theorem syncStep_keeps_stamp {s u : List TxRow} {i : String} (hstep : SyncStep s u)
    (hE : ∃ r ∈ s, r.tx.id = i) (hQ : ∀ r ∈ s, r.tx.id = i → r.syncedAt ≠ none) :
    (∃ r ∈ u, r.tx.id = i) ∧ (∀ r ∈ u, r.tx.id = i → r.syncedAt ≠ none) := by
  cases hstep with
  | insert t =>
    constructor
    · obtain ⟨r, hr, hri⟩ := hE
      unfold insertIfAbsent
      by_cases hc : (s.any (fun r => r.tx.id = t.id)) = true
      · rw [if_pos hc]
        exact ⟨r, hr, hri⟩
      · rw [if_neg hc]
        exact ⟨r, List.mem_append_left _ hr, hri⟩
    · intro r hr hri
      rcases mem_insertIfAbsent hr with h | h
      · exact hQ r h hri
      · exfalso
        subst h
        have hti : t.id = i := hri
        obtain ⟨r0, hr0, hr0i⟩ := hE
        have hc : (s.any (fun r => r.tx.id = t.id)) = true := by
          rw [List.any_eq_true]
          exact ⟨r0, hr0, decide_eq_true (hr0i.trans hti.symm)⟩
        unfold insertIfAbsent at hr
        rw [if_pos hc] at hr
        exact hQ _ hr hri (by
          have : (freshRow t).syncedAt = none := rfl
          exact this)
  | recSynced i2 y now hsel =>
    constructor
    · obtain ⟨r, hr, hri⟩ := hE
      refine ⟨_, List.mem_map_of_mem _ hr, ?_⟩
      by_cases hid : r.tx.id = i2
      · rw [if_pos hid]
        exact hri
      · rw [if_neg hid]
        exact hri
    · intro r hr hri
      obtain ⟨r0, hr0, heq⟩ := List.mem_map.mp hr
      by_cases hid : r0.tx.id = i2
      · rw [if_pos hid] at heq
        rw [← heq]
        intro hcon
        exact Option.noConfusion hcon
      · rw [if_neg hid] at heq
        rw [← heq]
        rw [← heq] at hri
        exact hQ r0 hr0 hri
  | recFailed i2 e k now hsel =>
    constructor
    · obtain ⟨r, hr, hri⟩ := hE
      refine ⟨_, List.mem_map_of_mem _ hr, ?_⟩
      by_cases hid : r.tx.id = i2
      · rw [if_pos hid]
        exact hri
      · rw [if_neg hid]
        exact hri
    · intro r hr hri
      obtain ⟨r0, hr0, heq⟩ := List.mem_map.mp hr
      by_cases hid : r0.tx.id = i2
      · rw [if_pos hid] at heq
        rw [← heq]
        intro hcon
        exact Option.noConfusion hcon
      · rw [if_neg hid] at heq
        rw [← heq]
        rw [← heq] at hri
        exact hQ r0 hr0 hri

/-- Reachability preserves the synced stamp of an id. -/
theorem syncReachFrom_keeps_stamp {s u : List TxRow} {i : String}
    (h : SyncReachFrom s u)
    (hE : ∃ r ∈ s, r.tx.id = i) (hQ : ∀ r ∈ s, r.tx.id = i → r.syncedAt ≠ none) :
    (∃ r ∈ u, r.tx.id = i) ∧ (∀ r ∈ u, r.tx.id = i → r.syncedAt ≠ none) := by
  induction h with
  | refl => exact ⟨hE, hQ⟩
  | tail hreach hstep ih => exact syncStep_keeps_stamp hstep ih.1 ih.2

/-- Claim C10: record-error stamps syncedAt with the current time on
a row that still has no ledger transaction id; that row therefore
drops out of the fresh-sync pending selection in the resulting state
and in every state reachable from it, while the retry selection
(syncedAt NULL or lastError NOT NULL) does select it again. -/
theorem c10_error_stamps_synced (s : List TxRow) (i e : String) (k : ErrorType) (now : ℕ)
    (hreach : SyncReach s)
    (hsel : ∀ r ∈ s, r.tx.id = i → selectable r)
    (hex : ∃ r ∈ s, r.tx.id = i) :
    (∀ r ∈ recordError s i e k now, r.tx.id = i →
      r.syncedAt = some now ∧ r.ynabTransactionId = none ∧
      r ∉ pendingSel (recordError s i e k now) ∧
      r ∈ failedSel (recordError s i e k now)) ∧
    (∀ u, SyncReachFrom (recordError s i e k now) u →
      ∀ r ∈ u, r.tx.id = i → r.syncedAt ≠ none) := by
  have hfields : ∀ r ∈ recordError s i e k now, r.tx.id = i →
      r.syncedAt = some now ∧ r.ynabTransactionId = none ∧ r.lastError = some e := by
    intro r hr hri
    obtain ⟨r0, hr0, heq⟩ := List.mem_map.mp hr
    by_cases hid : r0.tx.id = i
    · rw [if_pos hid] at heq
      have hynab : r0.ynabTransactionId = none := by
        by_contra hne
        obtain ⟨hsynced, herrnone⟩ := (syncReach_inv hreach r0 hr0).1 hne
        rcases hsel r0 hr0 hid with hs | he
        · exact hsynced hs
        · exact he herrnone
      rw [← heq]
      exact ⟨rfl, hynab, rfl⟩
    · rw [if_neg hid] at heq
      rw [← heq] at hri
      exact absurd hri hid
  constructor
  · intro r hr hri
    obtain ⟨hsa, hynab, herr⟩ := hfields r hr hri
    refine ⟨hsa, hynab, ?_, ?_⟩
    · intro hmem
      have hp := (List.mem_filter.mp hmem).2
      rw [herr, hsa] at hp
      simp at hp
    · unfold failedSel
      rw [List.mem_filter]
      refine ⟨hr, ?_⟩
      rw [herr]
      simp
  · intro u hku
    refine (syncReachFrom_keeps_stamp hku ?_ ?_).2
    · obtain ⟨r0, hr0, hr0i⟩ := hex
      refine ⟨_, List.mem_map_of_mem _ hr0, ?_⟩
      by_cases hid : r0.tx.id = i
      · rw [if_pos hid]
        exact hr0i
      · rw [if_neg hid]
        exact hr0i
    · intro r hr hri
      rw [(hfields r hr hri).1]
      intro hcon
      exact Option.noConfusion hcon

/-- Witness for C10: record-error on the single fresh row of the
fixture table stamps syncedAt at time five, leaves the ledger id
null, removes the row from the pending selection, and the retry
selection picks it up. -/
theorem c10_error_stamps_synced_witness :
    (rowErrEx.syncedAt = some 5 ∧ rowErrEx.ynabTransactionId = none ∧
      rowErrEx ∉ pendingSel (recordError [freshRow txSmall] txSmall.id "boom" .NETWORK_ERROR 5) ∧
      rowErrEx ∈ failedSel (recordError [freshRow txSmall] txSmall.id "boom" .NETWORK_ERROR 5)) ∧
    rowErrEx.syncedAt ≠ none := by
  have hreach : SyncReach [freshRow txSmall] :=
    SyncReachFrom.tail (SyncReachFrom.refl []) (SyncStep.insert [] txSmall)
  have hsel : ∀ r ∈ [freshRow txSmall], r.tx.id = txSmall.id → selectable r := by
    intro r hr _
    rw [List.mem_singleton.mp hr]
    exact Or.inl rfl
  have hex : ∃ r ∈ [freshRow txSmall], r.tx.id = txSmall.id :=
    ⟨freshRow txSmall, List.mem_singleton.mpr rfl, rfl⟩
  have hmain := c10_error_stamps_synced [freshRow txSmall] txSmall.id "boom" .NETWORK_ERROR 5
    hreach hsel hex
  have hmem : rowErrEx ∈ recordError [freshRow txSmall] txSmall.id "boom" .NETWORK_ERROR 5 := by
    rw [show recordError [freshRow txSmall] txSmall.id "boom" .NETWORK_ERROR 5
        = [rowErrEx] from rfl]
    exact List.mem_singleton.mpr rfl
  refine ⟨hmain.1 rowErrEx hmem rfl, ?_⟩
  have := hmain.2 _ (SyncReachFrom.refl _) rowErrEx hmem rfl
  exact this

/-- Claim C2: a transfer document whose extracted destination is not
an own instrument while the extracted origin is one yields exactly
one record, an outflow whose account is overwritten to the origin
instrument. -/
theorem c2_transfer_outflow_origin (msg : BhdDoc) (dest origin : String)
    (cur : Option (List Char)) (tok : DecTok)
    (hdest : bhdScanDest (normalizeWS msg.text) = some dest)
    (hdmem : dest ∉ bhdMyAccounts)
    (horig : bhdScanOrigin (normalizeWS msg.text) = some origin)
    (homem : origin ∈ bhdMyAccounts)
    (hamt : bhdScanAmount (normalizeWS msg.text) = some (cur, tok)) :
    ∃ tx, bhdParseTransfer msg = some tx ∧ tx.account = some origin ∧
      tx.direction = .outflow ∧ tx.amount = decTokVal tok := by
  unfold bhdParseTransfer
  dsimp only
  rw [hamt, hdest, horig]
  dsimp only
  have hA : (some dest).isSome = true ∧
      ¬ bhdMyAccounts.contains ((some dest).getD "") = true ∧
      (some origin).isSome = true ∧
      bhdMyAccounts.contains ((some origin).getD "") = true := by
    refine ⟨rfl, ?_, rfl, ?_⟩
    · intro hcc
      exact hdmem (List.elem_iff.mp hcc)
    · exact List.elem_iff.mpr homem
  rw [if_pos hA]
  exact ⟨_, rfl, by simp, rfl, rfl⟩

/-- Witness for C2: the fixture transfer (origin 0014 mine,
destination 9999 not mine, amount 500.00, date 2026-01-05) yields one
record with account 0014 and direction outflow. -/
theorem c2_transfer_outflow_origin_witness :
    ∃ tx, bhdParseTransfer bhdDocC2 = some tx ∧ tx.account = some "0014" ∧
      tx.direction = .outflow ∧ tx.amount = decTokVal ⟨500, ['0', '0']⟩ :=
  c2_transfer_outflow_origin bhdDocC2 "9999" "0014" (some "RD".toList) ⟨500, ['0', '0']⟩
    (by decide) (by decide) (by decide) (by decide) (by decide)

/-- Counterexample to claim C4: in the fixture transfer neither the
extracted destination 9999 nor the extracted origin 8888 is an own
instrument, yet extraction does not return null: it fabricates an
outflow record attributed to the destination. -/
theorem c4_counterexample :
    bhdScanDest (normalizeWS bhdNeitherDoc.text) = some "9999" ∧
    bhdScanOrigin (normalizeWS bhdNeitherDoc.text) = some "8888" ∧
    ("9999" ∉ bhdMyAccounts ∧ "8888" ∉ bhdMyAccounts) ∧
    (bhdParseTransfer bhdNeitherDoc).isSome = true ∧
    ((bhdParseTransfer bhdNeitherDoc).get (by decide)).account = some "9999" ∧
    ((bhdParseTransfer bhdNeitherDoc).get (by decide)).direction = .outflow :=
  ⟨by decide, by decide, by decide, by decide, by decide, by decide⟩

/-- Amended claim C4: when neither the extracted origin nor the
extracted destination is an own instrument (and an amount is
present), extraction does not return null; it returns an outflow
record whose account is the destination instrument. -/
theorem c4_neither_mine_still_record (msg : BhdDoc) (dest origin : String)
    (cur : Option (List Char)) (tok : DecTok)
    (hdest : bhdScanDest (normalizeWS msg.text) = some dest)
    (hdmem : dest ∉ bhdMyAccounts)
    (horig : bhdScanOrigin (normalizeWS msg.text) = some origin)
    (homem : origin ∉ bhdMyAccounts)
    (hamt : bhdScanAmount (normalizeWS msg.text) = some (cur, tok)) :
    ∃ tx, bhdParseTransfer msg = some tx ∧ tx.account = some dest ∧
      tx.direction = .outflow := by
  unfold bhdParseTransfer
  dsimp only
  rw [hamt, hdest, horig]
  dsimp only
  have hB : ¬ ((some dest).isSome = true ∧
      ¬ bhdMyAccounts.contains ((some dest).getD "") = true ∧
      (some origin).isSome = true ∧
      bhdMyAccounts.contains ((some origin).getD "") = true) := by
    rintro ⟨-, -, -, hcc⟩
    exact homem (List.elem_iff.mp hcc)
  rw [if_neg hB]
  refine ⟨_, rfl, rfl, ?_⟩
  dsimp only
  split_ifs with h1 h2
  · exfalso
    simp only [Option.map_some', Option.getD_some] at h1
    exact hdmem (List.elem_iff.mp h1)
  · rfl
  · rfl

/-- Witness for the amended C4 at the fixture document. -/
theorem c4_neither_mine_still_record_witness :
    ∃ tx, bhdParseTransfer bhdNeitherDoc = some tx ∧ tx.account = some "9999" ∧
      tx.direction = .outflow :=
  c4_neither_mine_still_record bhdNeitherDoc "9999" "8888" (some "RD".toList) ⟨500, ['0', '0']⟩
    (by decide) (by decide) (by decide) (by decide) (by decide)

/-- Counterexample to claim C5: the fixture transfer has an explicit
date token (day 99) that the strict date parse rejects, yet
extraction does not return null: it returns a record whose date is
the empty string. -/
theorem c5_counterexample :
    bhdScanDate (normalizeWS bhdBadDateDoc.text) = some ⟨99, 12, 2025, 11, 29, true⟩ ∧
    bhdTokValid ⟨99, 12, 2025, 11, 29, true⟩ = false ∧
    (bhdParseTransfer bhdBadDateDoc).isSome = true ∧
    ((bhdParseTransfer bhdBadDateDoc).get (by decide)).date = "" :=
  ⟨by decide, by decide, by decide, by decide⟩

/-- Amended claim C5: the Caribe parser falls back to the received
timestamp exactly when no explicit date token exists; a Fecha token
always supplies the calendar date, combined with the time token when
one exists and otherwise with only the received hours and minutes;
the BHD transfer parser turns an unparseable explicit date token into
a record with an empty date string rather than null. -/
theorem c5_date_fallback :
    (∀ (msg : MailDoc) (acct : String) (tok : DecTok),
      msg.hasHtml = true →
      caribeScanAccount (normalizeWS msg.text) = some acct →
      caribeScanAmount (normalizeWS msg.text) = some tok →
      caribeScanFecha (normalizeWS msg.text) = none →
      ∃ tx, caribeParse msg = some tx ∧ tx.date = formatYMD msg.received) ∧
    (∀ (msg : MailDoc) (acct : String) (tok : DecTok) (d m y hh n : ℕ),
      msg.hasHtml = true →
      caribeScanAccount (normalizeWS msg.text) = some acct →
      caribeScanAmount (normalizeWS msg.text) = some tok →
      caribeScanFecha (normalizeWS msg.text) = some (d, m, y) →
      caribeScanHora (normalizeWS msg.text) = some (hh, n) →
      ∃ tx, caribeParse msg = some tx ∧
        tx.date = formatYMD (jsDateMin y ((m : ℤ) - 1) d hh n)) ∧
    (∀ (msg : MailDoc) (acct : String) (tok : DecTok) (d m y : ℕ),
      msg.hasHtml = true →
      caribeScanAccount (normalizeWS msg.text) = some acct →
      caribeScanAmount (normalizeWS msg.text) = some tok →
      caribeScanFecha (normalizeWS msg.text) = some (d, m, y) →
      caribeScanHora (normalizeWS msg.text) = none →
      ∃ tx, caribeParse msg = some tx ∧
        tx.date = formatYMD (jsDateMin y ((m : ℤ) - 1) d
          (jsHours msg.received) (jsMinutes msg.received))) ∧
    (∀ (msg : BhdDoc) (cur : Option (List Char)) (tok : DecTok) (dtok : BhdDateTok),
      bhdScanAmount (normalizeWS msg.text) = some (cur, tok) →
      bhdScanDate (normalizeWS msg.text) = some dtok →
      bhdTokValid dtok = false →
      ∃ tx, bhdParseTransfer msg = some tx ∧ tx.date = "") := by
  refine ⟨?_, ?_, ?_, ?_⟩
  · intro msg acct tok hh hacct hamt hfecha
    unfold caribeParse
    rw [if_neg (by rw [hh]; intro hc; exact hc rfl)]
    dsimp only
    rw [hacct]
    dsimp only
    rw [hamt]
    dsimp only
    rw [hfecha]
    exact ⟨_, rfl, rfl⟩
  · intro msg acct tok d m y hh n hhtml hacct hamt hfecha hhora
    unfold caribeParse
    rw [if_neg (by rw [hhtml]; intro hc; exact hc rfl)]
    dsimp only
    rw [hacct]
    dsimp only
    rw [hamt]
    dsimp only
    rw [hfecha, hhora]
    exact ⟨_, rfl, rfl⟩
  · intro msg acct tok d m y hhtml hacct hamt hfecha hhora
    unfold caribeParse
    rw [if_neg (by rw [hhtml]; intro hc; exact hc rfl)]
    dsimp only
    rw [hacct]
    dsimp only
    rw [hamt]
    dsimp only
    rw [hfecha, hhora]
    exact ⟨_, rfl, rfl⟩
  · intro msg cur tok dtok hamt hdate hvalid
    have hd : bhdTransferDateStr (bhdScanDate (normalizeWS msg.text)) = "" := by
      rw [hdate]
      unfold bhdTransferDateStr
      dsimp only
      rw [hvalid]
      rfl
    unfold bhdParseTransfer
    dsimp only
    rw [hamt]
    dsimp only
    rw [hd]
    split_ifs
    all_goals exact ⟨_, rfl, rfl⟩

/-- Witness for the amended C5 at the four fixture documents,
covering no token, date and time tokens, a date token without a time
token, and the unparseable BHD token. -/
theorem c5_date_fallback_witness :
    (∃ tx, caribeParse caribeSmallAmtDoc = some tx ∧
      tx.date = formatYMD caribeSmallAmtDoc.received) ∧
    (∃ tx, caribeParse caribeFechaDoc = some tx ∧
      tx.date = formatYMD (jsDateMin 2025 ((11 : ℤ) - 1) 7 12 42)) ∧
    (∃ tx, caribeParse caribeFechaNoHoraDoc = some tx ∧
      tx.date = formatYMD (jsDateMin 2025 ((11 : ℤ) - 1) 7
        (jsHours caribeFechaNoHoraDoc.received) (jsMinutes caribeFechaNoHoraDoc.received))) ∧
    (∃ tx, bhdParseTransfer bhdBadDateDoc = some tx ∧ tx.date = "") :=
  ⟨c5_date_fallback.1 caribeSmallAmtDoc "1469" ⟨1, ['0', '0', '5']⟩
      rfl (by decide) (by decide) (by decide),
   c5_date_fallback.2.1 caribeFechaDoc "1469" ⟨14920, ['8', '2']⟩ 7 11 2025 12 42
      rfl (by decide) (by decide) (by decide) (by decide),
   c5_date_fallback.2.2.1 caribeFechaNoHoraDoc "1469" ⟨14920, ['8', '2']⟩ 7 11 2025
      rfl (by decide) (by decide) (by decide) (by decide),
   c5_date_fallback.2.2.2 bhdBadDateDoc (some "RD".toList) ⟨500, ['0', '0']⟩
      ⟨99, 12, 2025, 11, 29, true⟩ (by decide) (by decide) (by decide)⟩

/-- A successful scan comes from a successful tail parse at some
occurrence. -/
theorem scanFor_some {α : Type} (label : List Char) (p : List Char → Option α) :
    ∀ (s : List Char) (a : α), scanFor label p s = some a → ∃ s2, p s2 = some a := by
  intro s
  induction s with
  | nil =>
    intro a h
    exact Option.noConfusion h
  | cons c cs ih =>
    intro a h
    unfold scanFor at h
    by_cases hc : startsWithCI label (c :: cs) = true
    · rw [if_pos hc] at h
      cases hp : p ((c :: cs).drop label.length) with
      | some b =>
        rw [hp] at h
        injection h with h2
        subst h2
        exact ⟨_, hp⟩
      | none =>
        rw [hp] at h
        exact ih a h
    · rw [if_neg hc] at h
      exact ih a h

/-- The BHD transfer amount pattern captures exactly two fractional
digits. -/
theorem bhdAmountTail_frac2 (s2 : List Char) (cur : Option (List Char)) (tok : DecTok)
    (h : bhdAmountTail s2 = some (cur, tok)) : ∃ d1 d2, tok.fracDigits = [d1, d2] := by
  unfold bhdAmountTail at h
  dsimp only at h
  split_ifs at h <;>
    first
      | exact Option.noConfusion h
      | (split at h <;>
          first
            | exact Option.noConfusion h
            | (split_ifs at h
               all_goals
                 first
                   | exact Option.noConfusion h
                   | (injection h with h2
                      rw [Prod.mk.injEq] at h2
                      rw [← h2.2]
                      exact ⟨_, _, rfl⟩)))

/-- Counterexample to claim C6: the fixture Caribe document carries
the amount text 1.005; the parsed amount keeps all three decimal
digits instead of being truncated to two. -/
theorem c6_counterexample :
    caribeScanAmount (normalizeWS caribeSmallAmtDoc.text) = some ⟨1, ['0', '0', '5']⟩ ∧
    ((caribeParse caribeSmallAmtDoc).get (by decide)).amount = decTokVal ⟨1, ['0', '0', '5']⟩ ∧
    decTokVal ⟨1, ['0', '0', '5']⟩ ≠ decTokVal ⟨1, ['0', '0']⟩ := by
  refine ⟨by decide, rfl, ?_⟩
  unfold decTokVal fracVal
  rw [show digitsToNat ['0', '0', '5'] = 5 from rfl,
    show digitsToNat ['0', '0'] = 0 from rfl]
  norm_num

/-- Amended claim C6: amount extraction strips thousands separators;
the BHD transfer pattern itself truncates to two decimal digits (its
amounts times one hundred are integers), while the Caribe and QIK
patterns keep every captured decimal digit; in all three parsers a
document with no amount match is unparsable (null), never zero. -/
theorem c6_amount_parsing :
    (∀ (clean : List Char) (cur : Option (List Char)) (tok : DecTok),
      bhdScanAmount clean = some (cur, tok) → ∃ z : ℤ, decTokVal tok * 100 = (z : ℚ)) ∧
    (∀ msg : BhdDoc, bhdScanAmount (normalizeWS msg.text) = none →
      bhdParseTransfer msg = none) ∧
    (∀ msg : MailDoc, caribeScanAmount (normalizeWS msg.text) = none →
      caribeParse msg = none) ∧
    (∀ msg : MailDoc, qikScanAmount (normalizeWS msg.text) = none →
      qikParse msg = none) := by
  refine ⟨?_, ?_, ?_, ?_⟩
  · intro clean cur tok h
    obtain ⟨s2, h2⟩ := scanFor_some _ _ _ _ h
    obtain ⟨d1, d2, hfrac⟩ := bhdAmountTail_frac2 s2 cur tok h2
    refine ⟨100 * tok.intPart + digitsToNat [d1, d2], ?_⟩
    unfold decTokVal fracVal
    rw [hfrac]
    rw [show ([d1, d2].length) = 2 from rfl]
    push_cast
    field_simp
    ring
  · intro msg h
    unfold bhdParseTransfer
    dsimp only
    rw [h]
  · intro msg h
    unfold caribeParse
    split_ifs <;>
      first
        | rfl
        | (dsimp only
           cases ha : caribeScanAccount (normalizeWS msg.text) with
           | none => rfl
           | some acct =>
             dsimp only
             rw [h])
  · intro msg h
    unfold qikParse
    split_ifs <;>
      first
        | rfl
        | (dsimp only
           cases ha : qikAccountScan (normalizeWS msg.text) with
           | none => rfl
           | some acct =>
             dsimp only
             rw [h])

/-- Witness for the amended C6: a concrete BHD amount is an exact
two-decimal value, and the three no-amount fixtures all parse to
null. -/
theorem c6_amount_parsing_witness :
    (∃ z : ℤ, decTokVal ⟨26830, ['9', '5']⟩ * 100 = (z : ℚ)) ∧
    bhdParseTransfer bhdNoAmtDoc = none ∧
    caribeParse caribeNoAmtDoc = none ∧
    qikParse qikNoAmtDoc = none :=
  ⟨c6_amount_parsing.1 (normalizeWS "Monto: RD$ 26,830.95".toList) (some "RD".toList)
      ⟨26830, ['9', '5']⟩ (by decide),
   c6_amount_parsing.2.1 bhdNoAmtDoc (by decide),
   c6_amount_parsing.2.2.1 caribeNoAmtDoc (by decide),
   c6_amount_parsing.2.2.2 qikNoAmtDoc (by decide)⟩
